import Mathlib

/-!
# md-cover-creator: the MusicBrainz proxy

A shallow embedding of `cmd/server/main.go` and `internal/musicbrainz/client.go`.

The two Go files are glue around three standard packages, so the development starts
with the parts of `net/url`, `encoding/json` and `net/http` that the program calls:

* Go strings that travel through URLs are byte sequences (`Bytes`);
* JSON texts are handled as documents (`Json`), the value a text denotes;
* the network is a function from the request sent to what came back (`Client.Do`).
-/

/-! ## Byte strings -/

/-- A Go `string` seen as the sequence of its bytes. -/
abbrev Bytes := List (Fin 256)

/-- The byte of an ASCII character. -/
def chr (c : Char) : Fin 256 := Fin.ofNat c.toNat

/-- The bytes of an ASCII string literal. -/
def ascii (s : String) : Bytes := s.data.map chr

/-- Inclusive range test `lo <= c && c <= hi` on a byte. -/
def between (lo hi : Char) (c : Fin 256) : Bool := lo.toNat ≤ c.val && c.val ≤ hi.toNat

/-- Membership of a byte in a set of ASCII characters, as a Go `case 'a', 'b':` list. -/
def oneOf (set : String) (c : Fin 256) : Bool := (ascii set).contains c

/-- Function `strings.Cut(s, sep)` for a one-byte separator: before, after, found. -/
def cut (sep : Fin 256) : Bytes → Bytes × Bytes × Bool
  | [] => ([], [], false)
  | c :: rest =>
    if c = sep then ([], rest, true)
    else ((c :: (cut sep rest).1), (cut sep rest).2.1, (cut sep rest).2.2)

/-- The pieces of `s` between occurrences of `sep` (`strings.Split`). -/
def splitOn (sep : Fin 256) : Bytes → List Bytes
  | [] => [[]]
  | c :: rest =>
    if c = sep then [] :: splitOn sep rest
    else match splitOn sep rest with
      | [] => [[c]]
      | seg :: segs => (c :: seg) :: segs

/-- The bytes after the last occurrence of `sep`, when there is one
(`s[strings.LastIndex(s, sep)+1:]`). -/
def afterLast (sep : Fin 256) (s : Bytes) : Option Bytes :=
  if s.contains sep then some (s.reverse.takeWhile (fun c => c != sep)).reverse else none

/-- Byte-wise lexicographic `<` on strings, the order of `slices.Sort` on `[]string`. -/
def bytesLt : Bytes → Bytes → Bool
  | [], [] => false
  | [], _ :: _ => true
  | _ :: _, [] => false
  | a :: as, b :: bs => decide (a.val < b.val) || (a == b && bytesLt as bs)

/-- ASCII `strings.ToLower`. -/
def toLower (s : Bytes) : Bytes :=
  s.map (fun c => if between 'A' 'Z' c then Fin.ofNat (c.val + 32) else c)

deriving instance DecidableEq for Except

/-! ## net/url -/

/-- The escaping contexts of `net/url` (`type encoding int`). -/
inductive Encoding where
  | encodePath
  | encodePathSegment
  | encodeHost
  | encodeZone
  | encodeUserPassword
  | encodeQueryComponent
  | encodeFragment
  deriving DecidableEq

/-- Errors of `net/url`. -/
inductive UrlError where
  /-- An `EscapeError`: a malformed or disallowed `%` sequence -/
  | escape (s : Bytes)
  /-- An `InvalidHostError`: a byte that cannot appear in a host -/
  | invalidHost (s : Bytes)
  /-- invalid control character in URL -/
  | controlCharacter
  /-- missing protocol scheme -/
  | missingScheme
  /-- first path segment in URL cannot contain colon -/
  | colonInFirstSegment
  /-- invalid port after host -/
  | invalidPort (s : Bytes)
  /-- invalid semicolon separator in query -/
  | semicolon
  /-- an authority with userinfo (`@`) or an IP literal (`[`): not covered by this model;
  the only authority this program parses is `musicbrainz.org` -/
  | authorityOutsideModel
  deriving DecidableEq

def ishex (c : Fin 256) : Bool :=
  between '0' '9' c || between 'a' 'f' c || between 'A' 'F' c

def unhex (c : Fin 256) : Nat :=
  if between '0' '9' c then c.val - '0'.toNat
  else if between 'a' 'f' c then c.val - 'a'.toNat + 10
  else if between 'A' 'F' c then c.val - 'A'.toNat + 10
  else 0

/-- Indexing `upperhex = "0123456789ABCDEF"`. -/
def upperhex (n : Nat) : Fin 256 := (ascii "0123456789ABCDEF").getD n 0

/-- Function `shouldEscape` of `net/url`: whether byte `c` is percent-encoded in `mode`. -/
def shouldEscape (c : Fin 256) (mode : Encoding) : Bool :=
  if between 'a' 'z' c || between 'A' 'Z' c || between '0' '9' c then false
  else if (mode = .encodeHost || mode = .encodeZone) && oneOf "!$&'()*+,;=:[]<>\"" c then false
  else if oneOf "-_.~" c then false
  else if oneOf "$&+,/:;=?@" c &&
      (match mode with
        | .encodePath => true
        | .encodePathSegment => true
        | .encodeUserPassword => true
        | .encodeQueryComponent => true
        | .encodeFragment => true
        | _ => false) then
    (match mode with
      | .encodePath => c == chr '?'
      | .encodePathSegment => c == chr '/' || c == chr ';' || c == chr ',' || c == chr '?'
      | .encodeUserPassword => c == chr '@' || c == chr '/' || c == chr '?' || c == chr ':'
      | .encodeQueryComponent => true
      | _ => false)
  else if mode = .encodeFragment && oneOf "!()*" c then false
  else true

/-- Function `escape` of `net/url`. -/
def escape : Bytes → Encoding → Bytes
  | [], _ => []
  | c :: rest, mode =>
    if c = chr ' ' ∧ mode = .encodeQueryComponent then chr '+' :: escape rest mode
    else if shouldEscape c mode then
      chr '%' :: upperhex (c.val / 16) :: upperhex (c.val % 16) :: escape rest mode
    else c :: escape rest mode

/-- Function `unescape` of `net/url`: undo percent-encoding, reporting the first
malformed sequence (or, in a host, the first byte that is not allowed there). -/
def unescape : Bytes → Encoding → Except UrlError Bytes
  | [], _ => .ok []
  | c :: rest, mode =>
    if c = chr '%' then
      match rest with
      | h1 :: h2 :: rest2 =>
        if !(ishex h1 && ishex h2) then .error (.escape [c, h1, h2])
        else if mode = .encodeHost ∧ unhex h1 < 8 ∧ [c, h1, h2] ≠ ascii "%25" then
          .error (.escape [c, h1, h2])
        else if mode = .encodeZone ∧ [c, h1, h2] ≠ ascii "%25" ∧
            (Fin.ofNat (unhex h1 * 16 + unhex h2) : Fin 256) ≠ chr ' ' ∧
            shouldEscape (Fin.ofNat (unhex h1 * 16 + unhex h2)) .encodeHost then
          .error (.escape [c, h1, h2])
        else
          match unescape rest2 mode with
          | .error e => .error e
          | .ok t => .ok (Fin.ofNat (unhex h1 * 16 + unhex h2) :: t)
      | _ => .error (.escape (c :: rest))
    else if c = chr '+' then
      match unescape rest mode with
      | .error e => .error e
      | .ok t => .ok ((if mode = .encodeQueryComponent then chr ' ' else chr '+') :: t)
    else if (mode = .encodeHost ∨ mode = .encodeZone) ∧ c.val < 128 ∧
        shouldEscape c .encodeHost then
      .error (.invalidHost [c])
    else
      match unescape rest mode with
      | .error e => .error e
      | .ok t => .ok (c :: t)

def QueryEscape (s : Bytes) : Bytes := escape s .encodeQueryComponent

def QueryUnescape (s : Bytes) : Except UrlError Bytes := unescape s .encodeQueryComponent

/-- Function `validEncoded` of `net/url`. -/
def validEncoded (s : Bytes) (mode : Encoding) : Bool :=
  s.all (fun c => oneOf "!$&'()*+,;=:@" c || oneOf "[]" c || c == chr '%' || !shouldEscape c mode)

/-- Type `url.URL`, without the `User` field: userinfo is outside this model. -/
structure URL where
  Scheme : Bytes := []
  Opaque : Bytes := []
  Host : Bytes := []
  Path : Bytes := []
  RawPath : Bytes := []
  OmitHost : Bool := false
  ForceQuery : Bool := false
  RawQuery : Bytes := []
  Fragment : Bytes := []
  RawFragment : Bytes := []
  deriving DecidableEq

/-- Loop of `getScheme`: `i` bytes have been read into `seen` (in reverse). -/
def getSchemeLoop (rawURL : Bytes) : Bytes → Bytes → Except UrlError (Bytes × Bytes)
  | _, [] => .ok ([], rawURL)
  | seen, c :: rest =>
    if between 'a' 'z' c || between 'A' 'Z' c then getSchemeLoop rawURL (c :: seen) rest
    else if between '0' '9' c || oneOf "+-." c then
      if seen = [] then .ok ([], rawURL) else getSchemeLoop rawURL (c :: seen) rest
    else if c = chr ':' then
      if seen = [] then .error .missingScheme else .ok (seen.reverse, rest)
    else .ok ([], rawURL)

/-- Function `getScheme` of `net/url`: `(scheme, rest)`. -/
def getScheme (rawURL : Bytes) : Except UrlError (Bytes × Bytes) :=
  getSchemeLoop rawURL [] rawURL

/-- Function `validOptionalPort` of `net/url`. -/
def validOptionalPort : Bytes → Bool
  | [] => true
  | c :: digits => c == chr ':' && digits.all (between '0' '9')

/-- Function `parseHost` of `net/url`, for a host that is not an IP literal. -/
def parseHost (host : Bytes) : Except UrlError Bytes :=
  if host.head? = some (chr '[') then .error .authorityOutsideModel
  else
    match afterLast (chr ':') host with
    | some port =>
      if !validOptionalPort (chr ':' :: port) then .error (.invalidPort (chr ':' :: port))
      else unescape host .encodeHost
    | none => unescape host .encodeHost

/-- Function `parseAuthority` of `net/url`, for an authority without userinfo. -/
def parseAuthority (authority : Bytes) : Except UrlError Bytes :=
  if authority.contains (chr '@') then .error .authorityOutsideModel
  else parseHost authority

/-- Method `(*URL).setPath`. -/
def URL.setPath (u : URL) (p : Bytes) : Except UrlError URL :=
  match unescape p .encodePath with
  | .error e => .error e
  | .ok path =>
    .ok { u with Path := path, RawPath := if p = escape path .encodePath then [] else p }

/-- Method `(*URL).setFragment`. -/
def URL.setFragment (u : URL) (f : Bytes) : Except UrlError URL :=
  match unescape f .encodeFragment with
  | .error e => .error e
  | .ok frag =>
    .ok { u with Fragment := frag,
                 RawFragment := if f = escape frag .encodeFragment then [] else f }

/-- Function `parse` of `net/url` with `viaRequest = false`. -/
def parse (rawURL : Bytes) : Except UrlError URL :=
  if rawURL.any (fun b => decide (b.val < ' '.toNat) || b.val == 127) then
    .error .controlCharacter
  else if rawURL = ascii "*" then .ok { Path := ascii "*" }
  else
    match getScheme rawURL with
    | .error e => .error e
    | .ok (scheme, rest0) =>
      let url : URL := { Scheme := toLower scheme }
      let forced : Bool :=
        rest0.getLast? = some (chr '?') && rest0.count (chr '?') == 1
      let rest : Bytes := if forced then rest0.dropLast else (cut (chr '?') rest0).1
      let url : URL :=
        if forced then { url with ForceQuery := true }
        else { url with RawQuery := (cut (chr '?') rest0).2.1 }
      if rest.head? ≠ some (chr '/') ∧ url.Scheme ≠ [] then
        .ok { url with Opaque := rest }
      else if rest.head? ≠ some (chr '/') ∧ (cut (chr '/') rest).1.contains (chr ':') then
        .error .colonInFirstSegment
      else if (url.Scheme ≠ [] ∨ ¬ (ascii "///").isPrefixOf rest) ∧
          (ascii "//").isPrefixOf rest then
        let afterSlashes := rest.drop 2
        let authority := (cut (chr '/') afterSlashes).1
        let rest2 : Bytes :=
          if (cut (chr '/') afterSlashes).2.2
          then chr '/' :: (cut (chr '/') afterSlashes).2.1 else []
        match parseAuthority authority with
        | .error e => .error e
        | .ok host => URL.setPath { url with Host := host } rest2
      else if url.Scheme ≠ [] ∧ rest.head? = some (chr '/') then
        URL.setPath { url with OmitHost := true } rest
      else URL.setPath url rest

/-- Function `url.Parse`. -/
def Parse (rawURL : Bytes) : Except UrlError URL :=
  match parse (cut (chr '#') rawURL).1 with
  | .error e => .error e
  | .ok url =>
    if (cut (chr '#') rawURL).2.1 = [] then .ok url
    else URL.setFragment url (cut (chr '#') rawURL).2.1

/-- The test `p, err := unescape(raw, mode); err == nil && p == decoded`. -/
def unescapesTo (raw : Bytes) (mode : Encoding) (decoded : Bytes) : Bool :=
  match unescape raw mode with
  | .ok p => p == decoded
  | .error _ => false

/-- Method `(*URL).EscapedPath`. -/
def URL.EscapedPath (u : URL) : Bytes :=
  if u.RawPath ≠ [] ∧ validEncoded u.RawPath .encodePath ∧
      unescapesTo u.RawPath .encodePath u.Path then u.RawPath
  else if u.Path = ascii "*" then ascii "*"
  else escape u.Path .encodePath

/-- Method `(*URL).EscapedFragment`. -/
def URL.EscapedFragment (u : URL) : Bytes :=
  if u.RawFragment ≠ [] ∧ validEncoded u.RawFragment .encodeFragment ∧
      unescapesTo u.RawFragment .encodeFragment u.Fragment then u.RawFragment
  else escape u.Fragment .encodeFragment

/-- Method `(*URL).String` (a `URL` of this model has no userinfo). -/
def URL.String (u : URL) : Bytes :=
  let schemePart : Bytes := if u.Scheme ≠ [] then u.Scheme ++ [chr ':'] else []
  let body : Bytes :=
    if u.Opaque ≠ [] then schemePart ++ u.Opaque
    else
      let authority : Bytes :=
        if u.Scheme ≠ [] ∨ u.Host ≠ [] then
          if u.OmitHost ∧ u.Host = [] then []
          else (if u.Host ≠ [] ∨ u.Path ≠ [] then ascii "//" else []) ++
            (if u.Host ≠ [] then escape u.Host .encodeHost else [])
        else []
      let path := u.EscapedPath
      let buf := schemePart ++ authority
      let buf : Bytes :=
        if path ≠ [] ∧ path.head? ≠ some (chr '/') ∧ u.Host ≠ [] then buf ++ [chr '/'] else buf
      let buf : Bytes :=
        if buf = [] ∧ (cut (chr '/') path).1.contains (chr ':') then ascii "./" else buf
      buf ++ path
  let query : Bytes := if u.ForceQuery ∨ u.RawQuery ≠ [] then chr '?' :: u.RawQuery else []
  let fragment : Bytes := if u.Fragment ≠ [] then chr '#' :: u.EscapedFragment else []
  body ++ query ++ fragment

/-- Method `(*URL).RequestURI`: the request target written on the wire. -/
def URL.RequestURI (u : URL) : Bytes :=
  let result : Bytes :=
    if u.Opaque = [] then
      if u.EscapedPath = [] then ascii "/" else u.EscapedPath
    else if (ascii "//").isPrefixOf u.Opaque then u.Scheme ++ [chr ':'] ++ u.Opaque
    else u.Opaque
  if u.ForceQuery ∨ u.RawQuery ≠ [] then result ++ [chr '?'] ++ u.RawQuery else result

/-- Type `url.Values` (`map[string][]string`), kept as the list of its entries in
increasing key order, so that one map has one representation. -/
abbrev Values := List (Bytes × List Bytes)

/-- The map with the entry at `key` replaced by `f` of the old one (`nil` when absent). -/
def Values.modify (key : Bytes) (f : List Bytes → List Bytes) : Values → Values
  | [] => [(key, f [])]
  | (k, vs) :: rest =>
    if key = k then (k, f vs) :: rest
    else if bytesLt key k then (key, f []) :: (k, vs) :: rest
    else (k, vs) :: Values.modify key f rest

/-- Method `Values.Get`: the first value of `key`, or the empty string. -/
def Values.Get (v : Values) (key : Bytes) : Bytes :=
  match v.lookup key with
  | some (x :: _) => x
  | _ => []

/-- Method `Values.Set`. -/
def Values.Set (v : Values) (key value : Bytes) : Values := Values.modify key (fun _ => [value]) v

/-- The statement `m[key] = append(m[key], value)`. -/
def Values.Add (v : Values) (key value : Bytes) : Values :=
  Values.modify key (fun vs => vs ++ [value]) v

/-- The `key=value` items written by `Values.Encode`, in key order. -/
def Values.items (v : Values) : List Bytes :=
  match v with
  | [] => []
  | (k, vs) :: rest =>
    vs.map (fun x => QueryEscape k ++ chr '=' :: QueryEscape x) ++ Values.items rest

/-- Items joined by `&`. -/
def joinAmp : List Bytes → Bytes
  | [] => []
  | [x] => x
  | x :: y :: rest => x ++ chr '&' :: joinAmp (y :: rest)

/-- Method `Values.Encode`: `key=value` pairs sorted by key, joined by `&`. -/
def Values.Encode (v : Values) : Bytes := joinAmp (Values.items v)

/-- One round of the loop of `parseQuery` on the segment `seg` between two `&`. -/
def parseQuerySegment (acc : Values × Option UrlError) (seg : Bytes) :
    Values × Option UrlError :=
  if seg.contains (chr ';') then (acc.1, some .semicolon)
  else if seg = [] then acc
  else
    match QueryUnescape (cut (chr '=') seg).1 with
    | .error e => (acc.1, acc.2.orElse (fun _ => some e))
    | .ok key =>
      match QueryUnescape (cut (chr '=') seg).2.1 with
      | .error e => (acc.1, acc.2.orElse (fun _ => some e))
      | .ok value => (Values.Add acc.1 key value, acc.2)

/-- Function `url.ParseQuery`: the values parsed, and the first error met if any. -/
def ParseQuery (query : Bytes) : Values × Option UrlError :=
  (splitOn (chr '&') query).foldl parseQuerySegment ([], none)

/-- Method `(*URL).Query`: parse `RawQuery`, dropping malformed pairs silently. -/
def URL.Query (u : URL) : Values := (ParseQuery u.RawQuery).1

/-! ## encoding/json -/

/-- A JSON document: the value that a JSON text denotes. An object keeps its members
in the order of the text, duplicates included. A number written as an integer literal
is `int`; one written with a fraction or an exponent is `real`, kept as its text. -/
inductive Json where
  | null
  | bool (b : Bool)
  | int (n : Int)
  | real (lit : String)
  | str (s : String)
  | arr (items : List Json)
  | obj (members : List (String × Json))

/-- The name of a JSON value's kind in `UnmarshalTypeError.Value`. -/
def Json.kind : Json → String
  | .null => "null"
  | .bool _ => "bool"
  | .int _ => "number"
  | .real _ => "number"
  | .str _ => "string"
  | .arr _ => "array"
  | .obj _ => "object"

/-- Errors of `Decoder.Decode`. -/
inductive DecodeError where
  /-- the body holds no JSON value (`io.EOF`, `SyntaxError`) -/
  | noValue
  /-- An `UnmarshalTypeError`: a JSON value of kind `value` met a Go value of type `goType` -/
  | unmarshalType (value : String) (goType : String)
  deriving DecidableEq

def minInt : Int := -9223372036854775808

def maxInt : Int := 9223372036854775807

/-- A Go `int` (64-bit). -/
abbrev GoInt := { n : Int // minInt ≤ n ∧ n ≤ maxInt }

def GoInt.zero : GoInt := ⟨0, by decide⟩

/-- A Go slice: `nil`, or `items` (the elements up to `len`) in a backing array whose
elements between `len` and `cap` are `spare`. -/
inductive GoSlice (α : Type) where
  | nil
  | make (items : List α) (spare : List α)
  deriving DecidableEq

/-- The elements `s[0:len(s)]`. -/
def GoSlice.items {α : Type} : GoSlice α → List α
  | .nil => []
  | .make items _ => items

/-- The backing array `s[0:cap(s)]`. -/
def GoSlice.backing {α : Type} : GoSlice α → List α
  | .nil => []
  | .make items spare => items ++ spare

/-- Function `foldRune` of `encoding/json` on the runes that fold to an ASCII letter:
the letters themselves, U+017F (long s) and U+212A (Kelvin sign). Any other rune folds
to a non-ASCII rune, which is all that matters against the ASCII field names below. -/
def foldRune (c : Char) : Char :=
  if 'a'.toNat ≤ c.toNat ∧ c.toNat ≤ 'z'.toNat then Char.ofNat (c.toNat - 32)
  else if c.toNat = 0x017F then 'S'
  else if c.toNat = 0x212A then 'K'
  else c

/-- Function `foldName` of `encoding/json`. -/
def foldName (s : String) : List Char := s.data.map foldRune

/-- Whether the object key `key` selects the struct field tagged `name`: the exact name,
or else the same name under case folding. -/
def keyMatches (name key : String) : Bool := key == name || foldName key == foldName name

/-- Decoding into a `string`: `null` leaves the value, a JSON string replaces it. -/
def decodeString (cur : String) : Json → Except DecodeError String
  | .null => .ok cur
  | .str s => .ok s
  | j => .error (.unmarshalType j.kind "string")

/-- Decoding into an `int`: `null` leaves the value, an integer literal within the
64-bit range replaces it (`strconv.ParseInt`). -/
def decodeInt (cur : GoInt) : Json → Except DecodeError GoInt
  | .null => .ok cur
  | .int n => if h : minInt ≤ n ∧ n ≤ maxInt then .ok ⟨n, h⟩ else .error (.unmarshalType "number" "int")
  | j => .error (.unmarshalType j.kind "int")

/-- The loop of `decodeState.object` on a struct: each member whose key selects a field
is decoded into that field's current value, in the order of the text. -/
def decodeMembers {α : Type} (setField : α → String → Json → Except DecodeError α) :
    α → List (String × Json) → Except DecodeError α
  | cur, [] => .ok cur
  | cur, (key, value) :: rest =>
    match setField cur key value with
    | .error e => .error e
    | .ok next => decodeMembers setField next rest

/-- Decoding into a struct: `null` leaves it, an object updates it field by field. -/
def decodeStruct {α : Type} (goType : String)
    (setField : α → String → Json → Except DecodeError α) (cur : α) :
    Json → Except DecodeError α
  | .null => .ok cur
  | .obj members => decodeMembers setField cur members
  | j => .error (.unmarshalType j.kind goType)

/-- The loop of `decodeState.array` on a slice: item `i` is decoded into element `i` of
the backing array when there is one, into a zero element otherwise. -/
def decodeElems {α : Type} (zero : α) (dec : α → Json → Except DecodeError α) :
    List α → List Json → Except DecodeError (List α)
  | _, [] => .ok []
  | backing, j :: js =>
    match dec (backing.headD zero) j with
    | .error e => .error e
    | .ok x =>
      match decodeElems zero dec backing.tail js with
      | .error e => .error e
      | .ok xs => .ok (x :: xs)

/-- Decoding into a slice: `null` sets it to `nil`; an empty array to a fresh empty
slice; an array of `n > 0` items to `n` elements over the same backing array. -/
def decodeSlice {α : Type} (goType : String) (zero : α)
    (dec : α → Json → Except DecodeError α) (cur : GoSlice α) :
    Json → Except DecodeError (GoSlice α)
  | .null => .ok .nil
  | .arr items =>
    match decodeElems zero dec cur.backing items with
    | .error e => .error e
    | .ok xs =>
      if items.length = 0 then .ok (.make [] [])
      else .ok (.make xs (cur.backing.drop items.length))
  | j => .error (.unmarshalType j.kind goType)

/-- Encoding a slice: `nil` is `null`, otherwise the array of the encoded elements. -/
def encodeSlice {α : Type} (enc : α → Json) : GoSlice α → Json
  | .nil => .null
  | .make items _ => .arr (items.map enc)

/-! ## internal/musicbrainz/client.go: the data model -/

def BaseURL : String := "https://musicbrainz.org/ws/2"

/-- UserAgent is required by MusicBrainz API -/
def UserAgent : String := "MiniDiscCoverCreator/1.0.0 ( contact@example.com )"

/-- The anonymous element type of `ArtistCredit`: `struct { Name string }`. -/
structure Credit where
  Name : String := ""
  deriving DecidableEq

structure Release where
  ID : String := ""
  Title : String := ""
  Status : String := ""
  Date : String := ""
  Score : GoInt := GoInt.zero
  ArtistCredit : GoSlice Credit := .nil
  deriving DecidableEq

structure SearchResponse where
  Created : String := ""
  Count : GoInt := GoInt.zero
  Offset : GoInt := GoInt.zero
  Releases : GoSlice Release := .nil
  deriving DecidableEq

structure Track where
  ID : String := ""
  Position : GoInt := GoInt.zero
  Title : String := ""
  Length : GoInt := GoInt.zero
  deriving DecidableEq

structure Medium where
  Position : GoInt := GoInt.zero
  Format : String := ""
  Tracks : GoSlice Track := .nil
  deriving DecidableEq

structure ReleaseDetail where
  ID : String := ""
  Title : String := ""
  Media : GoSlice Medium := .nil
  ArtistCredit : GoSlice Credit := .nil
  deriving DecidableEq

/-! ### Decoding and encoding by the `json` tags -/

def Credit.setField (cur : Credit) (key : String) (value : Json) : Except DecodeError Credit :=
  if keyMatches "name" key then (decodeString cur.Name value).map (fun x => { cur with Name := x })
  else .ok cur

def Credit.decode : Credit → Json → Except DecodeError Credit :=
  decodeStruct "struct" Credit.setField

def Credit.encode (c : Credit) : Json := .obj [("name", .str c.Name)]

def Release.setField (cur : Release) (key : String) (value : Json) :
    Except DecodeError Release :=
  if keyMatches "id" key then (decodeString cur.ID value).map (fun x => { cur with ID := x })
  else if keyMatches "title" key then
    (decodeString cur.Title value).map (fun x => { cur with Title := x })
  else if keyMatches "status" key then
    (decodeString cur.Status value).map (fun x => { cur with Status := x })
  else if keyMatches "date" key then
    (decodeString cur.Date value).map (fun x => { cur with Date := x })
  else if keyMatches "score" key then
    (decodeInt cur.Score value).map (fun x => { cur with Score := x })
  else if keyMatches "artist-credit" key then
    (decodeSlice "[]struct" {} Credit.decode cur.ArtistCredit value).map
      (fun x => { cur with ArtistCredit := x })
  else .ok cur

def Release.decode : Release → Json → Except DecodeError Release :=
  decodeStruct "musicbrainz.Release" Release.setField

def Release.encode (r : Release) : Json :=
  .obj [("id", .str r.ID), ("title", .str r.Title), ("status", .str r.Status),
    ("date", .str r.Date), ("score", .int r.Score.val),
    ("artist-credit", encodeSlice Credit.encode r.ArtistCredit)]

def SearchResponse.setField (cur : SearchResponse) (key : String) (value : Json) :
    Except DecodeError SearchResponse :=
  if keyMatches "created" key then
    (decodeString cur.Created value).map (fun x => { cur with Created := x })
  else if keyMatches "count" key then
    (decodeInt cur.Count value).map (fun x => { cur with Count := x })
  else if keyMatches "offset" key then
    (decodeInt cur.Offset value).map (fun x => { cur with Offset := x })
  else if keyMatches "releases" key then
    (decodeSlice "[]musicbrainz.Release" {} Release.decode cur.Releases value).map
      (fun x => { cur with Releases := x })
  else .ok cur

def SearchResponse.decode : SearchResponse → Json → Except DecodeError SearchResponse :=
  decodeStruct "musicbrainz.SearchResponse" SearchResponse.setField

def SearchResponse.encode (r : SearchResponse) : Json :=
  .obj [("created", .str r.Created), ("count", .int r.Count.val),
    ("offset", .int r.Offset.val), ("releases", encodeSlice Release.encode r.Releases)]

def Track.setField (cur : Track) (key : String) (value : Json) : Except DecodeError Track :=
  if keyMatches "id" key then (decodeString cur.ID value).map (fun x => { cur with ID := x })
  else if keyMatches "position" key then
    (decodeInt cur.Position value).map (fun x => { cur with Position := x })
  else if keyMatches "title" key then
    (decodeString cur.Title value).map (fun x => { cur with Title := x })
  else if keyMatches "length" key then
    (decodeInt cur.Length value).map (fun x => { cur with Length := x })
  else .ok cur

def Track.decode : Track → Json → Except DecodeError Track :=
  decodeStruct "musicbrainz.Track" Track.setField

def Track.encode (t : Track) : Json :=
  .obj [("id", .str t.ID), ("position", .int t.Position.val), ("title", .str t.Title),
    ("length", .int t.Length.val)]

def Medium.setField (cur : Medium) (key : String) (value : Json) : Except DecodeError Medium :=
  if keyMatches "position" key then
    (decodeInt cur.Position value).map (fun x => { cur with Position := x })
  else if keyMatches "format" key then
    (decodeString cur.Format value).map (fun x => { cur with Format := x })
  else if keyMatches "tracks" key then
    (decodeSlice "[]musicbrainz.Track" {} Track.decode cur.Tracks value).map
      (fun x => { cur with Tracks := x })
  else .ok cur

def Medium.decode : Medium → Json → Except DecodeError Medium :=
  decodeStruct "musicbrainz.Medium" Medium.setField

def Medium.encode (m : Medium) : Json :=
  .obj [("position", .int m.Position.val), ("format", .str m.Format),
    ("tracks", encodeSlice Track.encode m.Tracks)]

def ReleaseDetail.setField (cur : ReleaseDetail) (key : String) (value : Json) :
    Except DecodeError ReleaseDetail :=
  if keyMatches "id" key then (decodeString cur.ID value).map (fun x => { cur with ID := x })
  else if keyMatches "title" key then
    (decodeString cur.Title value).map (fun x => { cur with Title := x })
  else if keyMatches "media" key then
    (decodeSlice "[]musicbrainz.Medium" {} Medium.decode cur.Media value).map
      (fun x => { cur with Media := x })
  else if keyMatches "artist-credit" key then
    (decodeSlice "[]struct" {} Credit.decode cur.ArtistCredit value).map
      (fun x => { cur with ArtistCredit := x })
  else .ok cur

def ReleaseDetail.decode : ReleaseDetail → Json → Except DecodeError ReleaseDetail :=
  decodeStruct "musicbrainz.ReleaseDetail" ReleaseDetail.setField

def ReleaseDetail.encode (r : ReleaseDetail) : Json :=
  .obj [("id", .str r.ID), ("title", .str r.Title),
    ("media", encodeSlice Medium.encode r.Media),
    ("artist-credit", encodeSlice Credit.encode r.ArtistCredit)]

/-- The call `json.NewDecoder(body).Decode(&result)` on a zero `result`: `body` is the
first JSON value of the stream, `none` when the stream does not start with one. -/
def jsonDecode {α : Type} (dec : α → Json → Except DecodeError α) (zero : α) :
    Option Json → Except DecodeError α
  | none => .error .noValue
  | some doc => dec zero doc

/-! ## net/http -/

/-- Type `http.Header`, for keys written in canonical form. -/
abbrev Header := List (String × List String)

def Header.Del (h : Header) (key : String) : Header := h.filter (fun kv => kv.1 != key)

def Header.Set (h : Header) (key value : String) : Header := Header.Del h key ++ [(key, [value])]

def Header.Get (h : Header) (key : String) : String :=
  match h.lookup key with
  | some (v :: _) => v
  | _ => ""

def StatusOK : Nat := 200

def StatusBadRequest : Nat := 400

def StatusInternalServerError : Nat := 500

/-- An outbound `*http.Request` as built by `http.NewRequest`. -/
structure Request where
  Method : String
  URL : URL
  Header : Header := []
  Host : Bytes := []
  deriving DecidableEq

/-- Function `isTokenRune` of `httpguts`, on ASCII. -/
def isTokenChar (c : Char) : Bool :=
  c.isAlphanum || "!#$%&'*+-.^_`|~".data.contains c

/-- Function `validMethod` of `net/http`. -/
def validMethod (method : String) : Bool := method.data != [] && method.data.all isTokenChar

/-- Function `removeEmptyPort` of `net/http`: drop a trailing `:` of the host. -/
def removeEmptyPort (host : Bytes) : Bytes :=
  if host.getLast? = some (chr ':') then host.dropLast else host

/-- What the upstream service answered: `resp.StatusCode`, `resp.Status`, and the JSON
value at the start of `resp.Body` if there is one. -/
structure UpstreamResponse where
  StatusCode : Int
  Status : String
  Body : Option Json

/-- The error of a failed `httpClient.Do`: no connection, timeout, bad redirect. -/
structure TransportError where
  detail : String
  deriving DecidableEq

/-- The errors that `SearchReleases` and `GetRelease` return. -/
inductive ClientError where
  /-- from `url.Parse` and `http.NewRequest` -/
  | url (e : UrlError)
  /-- The error `net/http: invalid method` from `http.NewRequest` -/
  | invalidMethod (method : String)
  /-- from `httpClient.Do` -/
  | transport (e : TransportError)
  /-- the error made by `fmt.Errorf`, with its message -/
  | api (message : String)
  /-- from `Decoder.Decode` -/
  | decode (e : DecodeError)
  deriving DecidableEq

/-- Function `http.NewRequest` with a nil body. -/
def NewRequest (method : String) (url : Bytes) : Except ClientError Request :=
  let method := if method = "" then "GET" else method
  if !validMethod method then .error (.invalidMethod method)
  else
    match Parse url with
    | .error e => .error (.url e)
    | .ok u =>
      .ok { Method := method, URL := { u with Host := removeEmptyPort u.Host },
            Header := [], Host := removeEmptyPort u.Host }

/-! ## internal/musicbrainz/client.go: the client -/

/-- The client: `Do` stands for `c.httpClient.Do`, the `http.Client` with its ten-second
timeout together with the network and the upstream service behind it. -/
structure Client where
  Do : Request → Except TransportError UpstreamResponse

def NewClient (network : Request → Except TransportError UpstreamResponse) : Client :=
  { Do := network }

/-- What a client operation did: the requests it handed to `Do`, and what it returned. -/
structure Call (α : Type) where
  sent : List Request
  result : Except ClientError α

def Client.SearchReleases (c : Client) (query : Bytes) : Call SearchResponse :=
  -- Construct URL
  match Parse (ascii (BaseURL ++ "/release/")) with
  | .error err => { sent := [], result := .error (.url err) }
  | .ok u =>
    let q := u.Query
    let q := q.Set (ascii "query") query
    let q := q.Set (ascii "fmt") (ascii "json")
    let u := { u with RawQuery := q.Encode }
    match NewRequest "GET" u.String with
    | .error err => { sent := [], result := .error err }
    | .ok req =>
      let req := { req with Header := Header.Set req.Header "User-Agent" UserAgent }
      match c.Do req with
      | .error err => { sent := [req], result := .error (.transport err) }
      | .ok resp =>
        if resp.StatusCode ≠ StatusOK then
          { sent := [req],
            result := .error (.api ("musicbrainz api error: " ++ resp.Status)) }
        else
          match jsonDecode SearchResponse.decode {} resp.Body with
          | .error err => { sent := [req], result := .error (.decode err) }
          | .ok result => { sent := [req], result := .ok result }

def Client.GetRelease (c : Client) (id : Bytes) : Call ReleaseDetail :=
  match Parse (ascii (BaseURL ++ "/release/") ++ id) with
  | .error err => { sent := [], result := .error (.url err) }
  | .ok u =>
    let q := u.Query
    let q := q.Set (ascii "inc") (ascii "recordings") -- Include recordings to get tracks
    let q := q.Set (ascii "fmt") (ascii "json")
    let u := { u with RawQuery := q.Encode }
    match NewRequest "GET" u.String with
    | .error err => { sent := [], result := .error err }
    | .ok req =>
      let req := { req with Header := Header.Set req.Header "User-Agent" UserAgent }
      match c.Do req with
      | .error err => { sent := [req], result := .error (.transport err) }
      | .ok resp =>
        if resp.StatusCode ≠ StatusOK then
          { sent := [req],
            result := .error (.api ("musicbrainz api error: " ++ resp.Status)) }
        else
          match jsonDecode ReleaseDetail.decode {} resp.Body with
          | .error err => { sent := [req], result := .error (.decode err) }
          | .ok result => { sent := [req], result := .ok result }

/-! ## cmd/server/main.go: the handlers -/

/-- One write to the response body. -/
inductive Chunk where
  /-- The call `w.Write([]byte(s))` -/
  | bytes (s : String)
  /-- The call `fmt.Fprintln(w, s)`: the text `s`, then a line feed -/
  | line (s : String)
  /-- The call `json.NewEncoder(w).Encode(v)`: the JSON text of the document, then a line feed -/
  | jsonLine (doc : Json)

/-- The state of an `http.ResponseWriter`: the header map, the status passed to
`WriteHeader` if it was called, and the writes to the body. -/
structure ResponseWriter where
  header : Header := []
  status : Option Nat := none
  body : List Chunk := []

/-- Method `WriteHeader`: the first call fixes the status. -/
def ResponseWriter.WriteHeader (w : ResponseWriter) (code : Nat) : ResponseWriter :=
  match w.status with
  | some _ => w
  | none => { w with status := some code }

/-- Method `Write`: a first write without `WriteHeader` sends status 200. -/
def ResponseWriter.Write (w : ResponseWriter) (chunk : Chunk) : ResponseWriter :=
  let w := w.WriteHeader StatusOK
  { w with body := w.body ++ [chunk] }

/-- The status code that the client receives. -/
def ResponseWriter.statusCode (w : ResponseWriter) : Nat := w.status.getD StatusOK

/-- Function `http.Error`. -/
def httpError (w : ResponseWriter) (error : String) (code : Nat) : ResponseWriter :=
  let h := Header.Del w.header "Content-Length"
  let h := Header.Set h "Content-Type" "text/plain; charset=utf-8"
  let h := Header.Set h "X-Content-Type-Options" "nosniff"
  let w := { w with header := h }
  let w := w.WriteHeader code
  w.Write (.line error)

/-- The inbound `*http.Request`; the handlers read `r.URL` only. -/
structure HttpRequest where
  URL : URL

/-- A line of the server log: the text before `%v`, and the error printed there. -/
structure LogLine where
  pre : String
  err : ClientError
  deriving DecidableEq

/-- What a handler did: its writes on `w`, the requests sent upstream, the log lines. -/
structure Served where
  w : ResponseWriter
  sent : List Request := []
  log : List LogLine := []

/-- The handler registered for `/api/search`. -/
def handleSearch (mbClient : Client) (r : HttpRequest) : Served :=
  let w : ResponseWriter := {}
  let query := r.URL.Query.Get (ascii "q")
  if query = [] then
    { w := httpError w "missing query parameter 'q'" StatusBadRequest }
  else
    let call := mbClient.SearchReleases query
    match call.result with
    | .error err =>
      { w := httpError w "search failed" StatusInternalServerError,
        sent := call.sent, log := [{ pre := "Search error: ", err := err }] }
    | .ok results =>
      let w := { w with header := Header.Set w.header "Content-Type" "application/json" }
      { w := w.Write (.jsonLine results.encode), sent := call.sent }

/-- The slice expression `s[n:]`, which panics when `n > len(s)`. -/
def sliceFrom (s : Bytes) (n : Nat) : Option Bytes :=
  if n ≤ s.length then some (s.drop n) else none

/-- The handler registered for `/api/release/`; `none` is a run-time panic. -/
def handleRelease (mbClient : Client) (r : HttpRequest) : Option Served :=
  let w : ResponseWriter := {}
  match sliceFrom r.URL.Path (ascii "/api/release/").length with
  | none => none
  | some id =>
    if id = [] then
      some { w := httpError w "missing release id" StatusBadRequest }
    else
      let call := mbClient.GetRelease id
      match call.result with
      | .error err =>
        some { w := httpError w "failed to get release" StatusInternalServerError,
               sent := call.sent, log := [{ pre := "GetRelease error: ", err := err }] }
      | .ok result =>
        let w := { w with header := Header.Set w.header "Content-Type" "application/json" }
        some { w := w.Write (.jsonLine result.encode), sent := call.sent }

/-- The handler registered for `/api/health`. -/
def handleHealth (_mbClient : Client) (_r : HttpRequest) : Served :=
  let w : ResponseWriter := {}
  let w := { w with header := Header.Set w.header "Content-Type" "application/json" }
  { w := w.Write (.bytes "\x7b\"status\":\"ok\"\x7d") }

/-! ## Reading a JSON document -/

/-- The value of the member of an object that the decoder takes for the field tagged
`name`: the last member whose key selects that field. -/
def Json.member (name : String) : Json → Option Json
  | .obj members =>
    members.foldl (fun acc kv => if keyMatches name kv.1 then some kv.2 else acc) none
  | _ => none

/-- The items of an array; no items for anything else. -/
def Json.elements : Option Json → List Json
  | some (.arr items) => items
  | _ => []

/-- A slice as it is after encoding and decoding again: the same elements, each passed
through `f`, over a fresh backing array. -/
def GoSlice.fresh {α : Type} (f : α → α) : GoSlice α → GoSlice α
  | .nil => .nil
  | .make items _ => .make (items.map f) []

def Release.fresh (r : Release) : Release :=
  { r with ArtistCredit := GoSlice.fresh id r.ArtistCredit }

def SearchResponse.fresh (r : SearchResponse) : SearchResponse :=
  { r with Releases := GoSlice.fresh Release.fresh r.Releases }

/-- The names credited, in order. -/
def artistNames (credits : GoSlice Credit) : List String := credits.items.map Credit.Name

/-- The position that `given` states is the position that `written` states. -/
def positionKept (given written : Json) : Prop :=
  ∀ n : Int, given.member "position" = some (.int n) → written.member "position" = some (.int n)

/-- When `given` has an array of tracks, `written` has as many tracks, and each states
the position of the track at the same index of `given`. -/
def tracksKept (given written : Json) : Prop :=
  ∀ items, given.member "tracks" = some (.arr items) →
    List.Forall₂ positionKept items (Json.elements (written.member "tracks"))

/-- A medium keeps its position, and its tracks their order and positions. -/
def mediumKept (given written : Json) : Prop :=
  positionKept given written ∧ tracksKept given written

/-- When `given` has an array of media, `written` has as many media, each keeping what
the medium at the same index of `given` states. -/
def mediaKept (given written : Json) : Prop :=
  ∀ items, given.member "media" = some (.arr items) →
    List.Forall₂ mediumKept items (Json.elements (written.member "media"))

/-- A control byte, as `stringContainsCTLByte` tests it. -/
def isCTL (b : Fin 256) : Bool := decide (b.val < ' '.toNat) || b.val == 127

/-- The string that `given` states for `name` is the string that `written` states. -/
def stringKept (name : String) (given written : Json) : Prop :=
  ∀ s : String, given.member name = some (.str s) → written.member name = some (.str s)

/-- The integer that `given` states for `name` is the integer that `written` states. -/
def intKept (name : String) (given written : Json) : Prop :=
  ∀ n : Int, given.member name = some (.int n) → written.member name = some (.int n)

/-- When `given` has an array of credits, `written` has as many, each stating the name
of the credit at the same index of `given`. -/
def creditsKept (given written : Json) : Prop :=
  ∀ items, given.member "artist-credit" = some (.arr items) →
    List.Forall₂ (stringKept "name") items (Json.elements (written.member "artist-credit"))

/-- A release entry keeps its id, title, status, date, score and credited names. -/
def releaseKept (given written : Json) : Prop :=
  stringKept "id" given written ∧ stringKept "title" given written ∧
  stringKept "status" given written ∧ stringKept "date" given written ∧
  intKept "score" given written ∧ creditsKept given written

/-- A search response keeps created, count and offset, and when `given` has an array of
releases, `written` has as many, each keeping the entry at the same index of `given`. -/
def searchKept (given written : Json) : Prop :=
  stringKept "created" given written ∧ intKept "count" given written ∧
  intKept "offset" given written ∧
  ∀ items, given.member "releases" = some (.arr items) →
    List.Forall₂ releaseKept items (Json.elements (written.member "releases"))

/-- The steps that `SearchReleases` and `GetRelease` share once the request is built: set
the header, send, check the status, decode the body. -/
def Client.roundTrip {α : Type} (c : Client) (dec : α → Json → Except DecodeError α)
    (zero : α) (req : Request) : Call α :=
  { sent := [{ req with Header := Header.Set req.Header "User-Agent" UserAgent }],
    result :=
      match c.Do { req with Header := Header.Set req.Header "User-Agent" UserAgent } with
      | .error e => .error (.transport e)
      | .ok resp =>
        if resp.StatusCode ≠ StatusOK then
          .error (.api ("musicbrainz api error: " ++ resp.Status))
        else
          match jsonDecode dec zero resp.Body with
          | .error e => .error (.decode e)
          | .ok result => .ok result }

/-- An upstream failure: no answer, an answer with a status other than 200, or a body that
does not decode. -/
def upstreamFailed {α : Type} (dec : α → Json → Except DecodeError α) (zero : α) :
    Except TransportError UpstreamResponse → Prop
  | .error _ => True
  | .ok resp => resp.StatusCode ≠ 200 ∨ ∃ e, jsonDecode dec zero resp.Body = .error e

/-! ## Sample inputs -/

/-- An upstream service that cannot be reached. -/
def refusing : Client := NewClient (fun _ => .error ⟨"dial tcp: connection refused"⟩)

/-- An upstream service that answers every request `404 Not Found`. -/
def notFound : Client :=
  NewClient (fun _ => .ok { StatusCode := 404, Status := "404 Not Found",
                            Body := some (.obj [("error", .str "Not Found")]) })

/-- An upstream service that answers every request `200 OK` with the body `doc`. -/
def answering (doc : Json) : Client :=
  NewClient (fun _ => .ok { StatusCode := 200, Status := "200 OK", Body := some doc })

/-- The request that `SearchReleases("Nevermind")` sends. -/
def nevermindRequest : Request :=
  { Method := "GET",
    URL := { Scheme := ascii "https", Host := ascii "musicbrainz.org",
             Path := ascii "/ws/2/release/", RawQuery := ascii "fmt=json&query=Nevermind" },
    Header := [("User-Agent", [UserAgent])],
    Host := ascii "musicbrainz.org" }

/-- The request that `GetRelease("abc-123")` sends. -/
def abc123Request : Request :=
  { Method := "GET",
    URL := { Scheme := ascii "https", Host := ascii "musicbrainz.org",
             Path := ascii "/ws/2/release/abc-123",
             RawQuery := ascii "fmt=json&inc=recordings" },
    Header := [("User-Agent", [UserAgent])],
    Host := ascii "musicbrainz.org" }

/-- The URL `https://musicbrainz.org/ws/2/release/` as `url.Parse` returns it. -/
def searchEndpoint : URL :=
  { Scheme := ascii "https", Host := ascii "musicbrainz.org", Path := ascii "/ws/2/release/" }

/-- The request `GET /release/?query=<q>&fmt=json` on the upstream service, before the
client sets its headers. -/
def searchRequest (query : Bytes) : Request :=
  { Method := "GET",
    URL := { searchEndpoint with RawQuery := ascii "fmt=json&query=" ++ QueryEscape query },
    Header := [],
    Host := ascii "musicbrainz.org" }

/-- The body of the spec's scenario for `GET /api/search?q=Nevermind`. -/
def nevermind : Json :=
  .obj [("created", .str "2024-01-01T00:00:00Z"), ("count", .int 1), ("offset", .int 0),
    ("releases", .arr [.obj [("id", .str "abc-123"), ("title", .str "Nevermind"),
      ("status", .str "Official"), ("date", .str "1991-09-24"), ("score", .int 100),
      ("artist-credit", .arr [.obj [("name", .str "Nirvana")]])]])]

/-- The value that the body `nevermind` decodes to. -/
def nevermindResponse : SearchResponse :=
  { Created := "2024-01-01T00:00:00Z", Count := ⟨1, by decide⟩, Offset := ⟨0, by decide⟩,
    Releases := .make [
      { ID := "abc-123", Title := "Nevermind", Status := "Official",
        Date := "1991-09-24", Score := ⟨100, by decide⟩,
        ArtistCredit := .make [{ Name := "Nirvana" }] [] }] [] }

/-- The inbound request `GET /api/search?q=Nevermind`. -/
def nevermindSearch : HttpRequest :=
  { URL := { Path := ascii "/api/search", RawQuery := ascii "q=Nevermind" } }

/-- A release with two media whose positions, and whose tracks' positions, are not in
ascending order. -/
def twoDiscs : Json :=
  .obj [("id", .str "abc-123"), ("title", .str "Nevermind"),
    ("media", .arr [
      .obj [("position", .int 2), ("format", .str "CD"),
        ("tracks", .arr [
          .obj [("id", .str "t3"), ("position", .int 3), ("title", .str "C"), ("length", .int 3)],
          .obj [("id", .str "t1"), ("position", .int 1), ("title", .str "A"), ("length", .int 1)],
          .obj [("id", .str "t2"), ("position", .int 2), ("title", .str "B"), ("length", .int 2)]])],
      .obj [("position", .int 1), ("format", .str "CD"),
        ("tracks", .arr [
          .obj [("id", .str "t5"), ("position", .int 2), ("title", .str "E"), ("length", .int 5)],
          .obj [("id", .str "t4"), ("position", .int 1), ("title", .str "D"), ("length", .int 4)]])]]),
    ("artist-credit", .arr [.obj [("name", .str "Nirvana")]])]

/-- The value that the body `twoDiscs` decodes to. -/
def twoDiscsDetail : ReleaseDetail :=
  { ID := "abc-123", Title := "Nevermind",
    Media := .make [
      { Position := ⟨2, by decide⟩, Format := "CD",
        Tracks := .make [
          { ID := "t3", Position := ⟨3, by decide⟩, Title := "C", Length := ⟨3, by decide⟩ },
          { ID := "t1", Position := ⟨1, by decide⟩, Title := "A", Length := ⟨1, by decide⟩ },
          { ID := "t2", Position := ⟨2, by decide⟩, Title := "B", Length := ⟨2, by decide⟩ }] [] },
      { Position := ⟨1, by decide⟩, Format := "CD",
        Tracks := .make [
          { ID := "t5", Position := ⟨2, by decide⟩, Title := "E", Length := ⟨5, by decide⟩ },
          { ID := "t4", Position := ⟨1, by decide⟩, Title := "D", Length := ⟨4, by decide⟩ }] [] }] [],
    ArtistCredit := .make [{ Name := "Nirvana" }] [] }

/-- The inbound request `GET /api/release/abc-123`. -/
def abc123Release : HttpRequest := { URL := { Path := ascii "/api/release/abc-123" } }

/-- The claim C8 read on one id: exactly one request is sent, a `GET` whose URL path is
`/ws/2/release/` followed by the raw id and whose query holds exactly `fmt=json` and
`inc=recordings`. -/
def releaseRequestAsClaimed (c : Client) (id : Bytes) : Prop :=
  (c.GetRelease id).sent.map (fun req => (req.Method, req.URL.Path, req.URL.Query)) =
    [("GET", ascii "/ws/2/release/" ++ id,
      [(ascii "fmt", [ascii "json"]), (ascii "inc", [ascii "recordings"])])]

instance (c : Client) (id : Bytes) : Decidable (releaseRequestAsClaimed c id) :=
  inferInstanceAs (Decidable (_ = _))

/-- Same fields in two releases: id, title, status, date, score, and the names credited. -/
def sameRelease (a b : Release) : Prop :=
  a.ID = b.ID ∧ a.Title = b.Title ∧ a.Status = b.Status ∧ a.Date = b.Date ∧
    a.Score = b.Score ∧ artistNames a.ArtistCredit = artistNames b.ArtistCredit

/-! ## The two operations, through their shared steps -/

theorem roundTrip_alt {α : Type} (c : Client) (dec : α → Json → Except DecodeError α)
    (zero : α) (req : Request) :
    c.roundTrip dec zero req =
      match c.Do { req with Header := Header.Set req.Header "User-Agent" UserAgent } with
      | .error err =>
        { sent := [{ req with Header := Header.Set req.Header "User-Agent" UserAgent }],
          result := .error (.transport err) }
      | .ok resp =>
        if resp.StatusCode ≠ StatusOK then
          { sent := [{ req with Header := Header.Set req.Header "User-Agent" UserAgent }],
            result := .error (.api ("musicbrainz api error: " ++ resp.Status)) }
        else
          match jsonDecode dec zero resp.Body with
          | .error err =>
            { sent := [{ req with Header := Header.Set req.Header "User-Agent" UserAgent }],
              result := .error (.decode err) }
          | .ok result =>
            { sent := [{ req with Header := Header.Set req.Header "User-Agent" UserAgent }],
              result := .ok result } := by
  unfold Client.roundTrip
  cases c.Do { req with Header := Header.Set req.Header "User-Agent" UserAgent } with
  | error e => rfl
  | ok resp =>
    simp only
    split_ifs
    · rfl
    · cases jsonDecode dec zero resp.Body <;> rfl

theorem SearchReleases_def (c : Client) (query : Bytes) :
    c.SearchReleases query =
      match Parse (ascii (BaseURL ++ "/release/")) with
      | .error err => { sent := [], result := .error (.url err) }
      | .ok u =>
        match NewRequest "GET"
            (URL.String { u with RawQuery :=
              ((u.Query.Set (ascii "query") query).Set (ascii "fmt") (ascii "json")).Encode }) with
        | .error err => { sent := [], result := .error err }
        | .ok req => c.roundTrip SearchResponse.decode {} req := by
  unfold Client.SearchReleases
  cases Parse (ascii (BaseURL ++ "/release/")) with
  | error e => rfl
  | ok u =>
    simp only
    cases NewRequest "GET"
        (URL.String { u with RawQuery :=
          ((u.Query.Set (ascii "query") query).Set (ascii "fmt") (ascii "json")).Encode }) with
    | error e => rfl
    | ok req =>
      simp only [roundTrip_alt]
      cases c.Do { req with Header := Header.Set req.Header "User-Agent" UserAgent } with
      | error e => rfl
      | ok resp =>
        simp only
        split_ifs
        · rfl
        · cases jsonDecode SearchResponse.decode {} resp.Body <;> rfl

theorem GetRelease_def (c : Client) (id : Bytes) :
    c.GetRelease id =
      match Parse (ascii (BaseURL ++ "/release/") ++ id) with
      | .error err => { sent := [], result := .error (.url err) }
      | .ok u =>
        match NewRequest "GET"
            (URL.String { u with RawQuery :=
              ((u.Query.Set (ascii "inc") (ascii "recordings")).Set (ascii "fmt")
                (ascii "json")).Encode }) with
        | .error err => { sent := [], result := .error err }
        | .ok req => c.roundTrip ReleaseDetail.decode {} req := by
  unfold Client.GetRelease
  cases Parse (ascii (BaseURL ++ "/release/") ++ id) with
  | error e => rfl
  | ok u =>
    simp only
    cases NewRequest "GET"
        (URL.String { u with RawQuery :=
          ((u.Query.Set (ascii "inc") (ascii "recordings")).Set (ascii "fmt")
            (ascii "json")).Encode }) with
    | error e => rfl
    | ok req =>
      simp only [roundTrip_alt]
      cases c.Do { req with Header := Header.Set req.Header "User-Agent" UserAgent } with
      | error e => rfl
      | ok resp =>
        simp only
        split_ifs
        · rfl
        · cases jsonDecode ReleaseDetail.decode {} resp.Body <;> rfl

/-! ## Properties of the handlers -/

theorem statusCode_httpError (error : String) (code : Nat) :
    (httpError {} error code).statusCode = code := rfl

theorem body_httpError (error : String) (code : Nat) :
    (httpError {} error code).body = [.line error] := rfl

theorem header_httpError (error : String) (code : Nat) :
    (httpError {} error code).header =
      [("Content-Type", ["text/plain; charset=utf-8"]),
       ("X-Content-Type-Options", ["nosniff"])] := rfl

theorem values_Get_of_absent (v : Values) (key : Bytes) (h : v.lookup key = none) :
    v.Get key = [] := by
  simp [Values.Get, h]

theorem values_Get_of_first_empty (v : Values) (key : Bytes) (rest : List Bytes)
    (h : v.lookup key = some ([] :: rest)) : v.Get key = [] := by
  simp [Values.Get, h]

/-- C1: a request to the `/api/search` handler whose parameter `q` is absent from the
parsed query, or whose first value for `q` is the empty string, is answered with status
400, the plain-text line `missing query parameter 'q'`, and no upstream call. -/
theorem search_without_q_is_400 (mbClient : Client) (r : HttpRequest)
    (h : r.URL.Query.lookup (ascii "q") = none ∨
      ∃ more, r.URL.Query.lookup (ascii "q") = some ([] :: more)) :
    (handleSearch mbClient r).w.statusCode = 400 ∧
    (handleSearch mbClient r).w.body = [.line "missing query parameter 'q'"] ∧
    (handleSearch mbClient r).w.header.Get "Content-Type" = "text/plain; charset=utf-8" ∧
    (handleSearch mbClient r).sent = [] := by
  have hq : r.URL.Query.Get (ascii "q") = [] := by
    rcases h with h | ⟨more, h⟩
    · exact values_Get_of_absent _ _ h
    · exact values_Get_of_first_empty _ _ more h
  have hs : handleSearch mbClient r =
      { w := httpError {} "missing query parameter 'q'" StatusBadRequest } := by
    simp [handleSearch, hq]
  rw [hs]
  exact ⟨rfl, rfl, rfl, rfl⟩

/-- The witness for C1: the raw queries `x=1` (no `q`) and `q=&q=abc` (empty `q`). -/
theorem search_without_q_is_400_witness :
    ((handleSearch (NewClient (fun _ => .error ⟨"unreachable"⟩))
        { URL := { Path := ascii "/api/search", RawQuery := ascii "x=1" } }).w.statusCode = 400 ∧
     (handleSearch (NewClient (fun _ => .error ⟨"unreachable"⟩))
        { URL := { Path := ascii "/api/search", RawQuery := ascii "q=&q=abc" } }).w.statusCode
        = 400) :=
  ⟨(search_without_q_is_400 _ _ (Or.inl (by decide))).1,
   (search_without_q_is_400 _ _ (Or.inr ⟨[ascii "abc"], by decide⟩)).1⟩

theorem length_releasePattern : (ascii "/api/release/").length = 13 := rfl

theorem sliceFrom_releasePattern (id : Bytes) :
    sliceFrom (ascii "/api/release/" ++ id) (ascii "/api/release/").length = some id := by
  simp [sliceFrom]

/-- C2: a request to the `/api/release/` handler whose path is the route pattern itself,
with nothing after it, is answered with status 400 and no upstream call. -/
theorem release_without_id_is_400 (mbClient : Client) (r : HttpRequest)
    (h : r.URL.Path = ascii "/api/release/") :
    ∃ s, handleRelease mbClient r = some s ∧ s.w.statusCode = 400 ∧
      s.w.body = [.line "missing release id"] ∧
      s.w.header.Get "Content-Type" = "text/plain; charset=utf-8" ∧ s.sent = [] := by
  refine ⟨{ w := httpError {} "missing release id" StatusBadRequest }, ?_, rfl, rfl, rfl, rfl⟩
  have hs := sliceFrom_releasePattern []
  rw [List.append_nil] at hs
  simp [handleRelease, h, hs]

/-- The witness for C2: the request `GET /api/release/`. -/
theorem release_without_id_is_400_witness :
    ∃ s, handleRelease (NewClient (fun _ => .error ⟨"unreachable"⟩))
        { URL := { Path := ascii "/api/release/" } } = some s ∧ s.w.statusCode = 400 ∧
      s.w.body = [.line "missing release id"] ∧
      s.w.header.Get "Content-Type" = "text/plain; charset=utf-8" ∧ s.sent = [] :=
  release_without_id_is_400 _ _ rfl

theorem roundTrip_sent {α : Type} (c : Client) (dec : α → Json → Except DecodeError α)
    (zero : α) (req : Request) :
    (c.roundTrip dec zero req).sent =
      [{ req with Header := Header.Set req.Header "User-Agent" UserAgent }] := rfl

theorem roundTrip_failed {α : Type} (c : Client) (dec : α → Json → Except DecodeError α)
    (zero : α) (req sentReq : Request) (hmem : sentReq ∈ (c.roundTrip dec zero req).sent)
    (hfail : upstreamFailed dec zero (c.Do sentReq)) :
    ∃ err, (c.roundTrip dec zero req).result = .error err := by
  rw [roundTrip_sent, List.mem_singleton] at hmem
  subst hmem
  simp only [Client.roundTrip]
  cases hdo : c.Do { req with Header := Header.Set req.Header "User-Agent" UserAgent } with
  | error e => exact ⟨_, rfl⟩
  | ok resp =>
    rw [hdo] at hfail
    simp only
    split_ifs with hs
    · exact ⟨_, rfl⟩
    · rcases hfail with hne | ⟨e, he⟩
      · exact absurd (by simpa [StatusOK] using hs) hne
      · rw [he]
        exact ⟨_, rfl⟩

/-- C3: when `SearchReleases` or `GetRelease` returns an error, whatever the error, the
route answers with one fixed response: status 500, `Content-Type: text/plain`, and the
line `search failed` (for `/api/search`) or `failed to get release` (for
`/api/release/<id>`); the error value goes to the server log and nowhere else. Each
upstream failure (no answer, a status other than 200, a body that does not decode) makes
the operation return an error. -/
theorem upstream_failure_is_generic_500 (c : Client) (r : HttpRequest) (err : ClientError) :
    (r.URL.Query.Get (ascii "q") ≠ [] →
      (c.SearchReleases (r.URL.Query.Get (ascii "q"))).result = .error err →
      (handleSearch c r).w.statusCode = 500 ∧
      (handleSearch c r).w.body = [.line "search failed"] ∧
      (handleSearch c r).w.header =
        [("Content-Type", ["text/plain; charset=utf-8"]),
         ("X-Content-Type-Options", ["nosniff"])] ∧
      (handleSearch c r).log = [{ pre := "Search error: ", err := err }]) ∧
    (∀ id, r.URL.Path = ascii "/api/release/" ++ id → id ≠ [] →
      (c.GetRelease id).result = .error err →
      ∃ s, handleRelease c r = some s ∧ s.w.statusCode = 500 ∧
        s.w.body = [.line "failed to get release"] ∧
        s.w.header =
          [("Content-Type", ["text/plain; charset=utf-8"]),
           ("X-Content-Type-Options", ["nosniff"])] ∧
        s.log = [{ pre := "GetRelease error: ", err := err }]) ∧
    (∀ query req, req ∈ (c.SearchReleases query).sent →
      upstreamFailed SearchResponse.decode {} (c.Do req) →
      ∃ e, (c.SearchReleases query).result = .error e) ∧
    (∀ id req, req ∈ (c.GetRelease id).sent →
      upstreamFailed ReleaseDetail.decode {} (c.Do req) →
      ∃ e, (c.GetRelease id).result = .error e) := by
  refine ⟨?_, ?_, ?_, ?_⟩
  · intro hq herr
    have hs : handleSearch c r =
        { w := httpError {} "search failed" StatusInternalServerError,
          sent := (c.SearchReleases (r.URL.Query.Get (ascii "q"))).sent,
          log := [{ pre := "Search error: ", err := err }] } := by
      simp [handleSearch, hq, herr]
    rw [hs]
    exact ⟨rfl, rfl, rfl, rfl⟩
  · intro id hpath hid herr
    refine ⟨{ w := httpError {} "failed to get release" StatusInternalServerError,
              sent := (c.GetRelease id).sent,
              log := [{ pre := "GetRelease error: ", err := err }] }, ?_, rfl, rfl, rfl, rfl⟩
    simp [handleRelease, hpath, sliceFrom_releasePattern, hid, herr]
  · intro query req hmem hfail
    rw [SearchReleases_def] at hmem ⊢
    cases hP : Parse (ascii (BaseURL ++ "/release/")) with
    | error e => simp [hP] at hmem
    | ok u =>
      simp only [hP] at hmem ⊢
      generalize NewRequest _ _ = built at hmem ⊢
      cases built with
      | error e => simp at hmem
      | ok req0 => exact roundTrip_failed c _ _ req0 req hmem hfail
  · intro id req hmem hfail
    rw [GetRelease_def] at hmem ⊢
    cases hP : Parse (ascii (BaseURL ++ "/release/") ++ id) with
    | error e => simp [hP] at hmem
    | ok u =>
      simp only [hP] at hmem ⊢
      generalize NewRequest _ _ = built at hmem ⊢
      cases built with
      | error e => simp at hmem
      | ok req0 => exact roundTrip_failed c _ _ req0 req hmem hfail

/-- The witness for C3: the upstream service refuses the connection. -/
theorem upstream_failure_is_generic_500_witness :
    (handleSearch (NewClient (fun _ => .error ⟨"dial tcp: connection refused"⟩))
        { URL := { Path := ascii "/api/search", RawQuery := ascii "q=Nevermind" } }).w.body
      = [.line "search failed"] ∧
    ∃ s, handleRelease (NewClient (fun _ => .error ⟨"dial tcp: connection refused"⟩))
        { URL := { Path := ascii "/api/release/abc-123" } } = some s ∧
      s.w.body = [.line "failed to get release"] :=
  ⟨((upstream_failure_is_generic_500
      (NewClient (fun _ => .error ⟨"dial tcp: connection refused"⟩))
      { URL := { Path := ascii "/api/search", RawQuery := ascii "q=Nevermind" } }
      (.transport ⟨"dial tcp: connection refused"⟩)).1 (by decide) (by decide!)).2.1,
   match (upstream_failure_is_generic_500
      (NewClient (fun _ => .error ⟨"dial tcp: connection refused"⟩))
      { URL := { Path := ascii "/api/release/abc-123" } }
      (.transport ⟨"dial tcp: connection refused"⟩)).2.1 (ascii "abc-123") rfl (by decide)
      (by decide!) with
   | ⟨s, hs, _, hb, _⟩ => ⟨s, hs, hb⟩⟩

/-- C6: `/api/health` answers every request with status 200, `Content-Type:
application/json` and the body `{"status":"ok"}`; it hands no request to the upstream
client, and its answer is the same whatever the client and the request are. -/
theorem health_is_fixed (mbClient : Client) (r : HttpRequest) :
    (handleHealth mbClient r).w.statusCode = 200 ∧
    (handleHealth mbClient r).w.header = [("Content-Type", ["application/json"])] ∧
    (handleHealth mbClient r).w.body = [.bytes "\x7b\"status\":\"ok\"\x7d"] ∧
    (handleHealth mbClient r).sent = [] ∧
    (handleHealth mbClient r).log = [] ∧
    ∀ (other : Client) (r2 : HttpRequest), handleHealth other r2 = handleHealth mbClient r :=
  ⟨rfl, rfl, rfl, rfl, rfl, fun _ _ => rfl⟩

theorem roundTrip_non200 {α : Type} (c : Client) (dec : α → Json → Except DecodeError α)
    (zero : α) (req sentReq : Request) (resp : UpstreamResponse)
    (hmem : sentReq ∈ (c.roundTrip dec zero req).sent) (hdo : c.Do sentReq = .ok resp)
    (hstatus : resp.StatusCode ≠ 200) :
    (c.roundTrip dec zero req).result =
      .error (.api ("musicbrainz api error: " ++ resp.Status)) := by
  rw [roundTrip_sent, List.mem_singleton] at hmem
  subst hmem
  simp only [Client.roundTrip, hdo]
  rw [if_pos (by simpa [StatusOK] using hstatus)]

/-- C7: when the upstream answer to the request sent has a status code other than 200,
`SearchReleases` and `GetRelease` return the error `musicbrainz api error: <status>`
built from `resp.Status`, whatever the body of the answer holds. -/
theorem non200_is_api_error (c : Client) (resp : UpstreamResponse)
    (hstatus : resp.StatusCode ≠ 200) :
    (∀ query req, req ∈ (c.SearchReleases query).sent → c.Do req = .ok resp →
      (c.SearchReleases query).result =
        .error (.api ("musicbrainz api error: " ++ resp.Status))) ∧
    (∀ id req, req ∈ (c.GetRelease id).sent → c.Do req = .ok resp →
      (c.GetRelease id).result =
        .error (.api ("musicbrainz api error: " ++ resp.Status))) := by
  constructor
  · intro query req hmem hdo
    rw [SearchReleases_def] at hmem ⊢
    cases hP : Parse (ascii (BaseURL ++ "/release/")) with
    | error e => simp [hP] at hmem
    | ok u =>
      simp only [hP] at hmem ⊢
      generalize NewRequest _ _ = built at hmem ⊢
      cases built with
      | error e => simp at hmem
      | ok req0 => exact roundTrip_non200 c _ _ req0 req resp hmem hdo hstatus
  · intro id req hmem hdo
    rw [GetRelease_def] at hmem ⊢
    cases hP : Parse (ascii (BaseURL ++ "/release/") ++ id) with
    | error e => simp [hP] at hmem
    | ok u =>
      simp only [hP] at hmem ⊢
      generalize NewRequest _ _ = built at hmem ⊢
      cases built with
      | error e => simp at hmem
      | ok req0 => exact roundTrip_non200 c _ _ req0 req resp hmem hdo hstatus

/-- The witness for C7: an upstream service that answers `404 Not Found`. -/
theorem non200_is_api_error_witness :
    (notFound.SearchReleases (ascii "Nevermind")).result =
      .error (.api ("musicbrainz api error: " ++ "404 Not Found")) ∧
    (notFound.GetRelease (ascii "abc-123")).result =
      .error (.api ("musicbrainz api error: " ++ "404 Not Found")) :=
  ⟨(non200_is_api_error notFound
      { StatusCode := 404, Status := "404 Not Found",
        Body := some (.obj [("error", .str "Not Found")]) } (by decide)).1
      (ascii "Nevermind") nevermindRequest (by decide!) rfl,
   (non200_is_api_error notFound
      { StatusCode := 404, Status := "404 Not Found",
        Body := some (.obj [("error", .str "Not Found")]) } (by decide)).2
      (ascii "abc-123") abc123Request (by decide!) rfl⟩

theorem header_lookup_Del (h : Header) (key : String) : (Header.Del h key).lookup key = none := by
  induction h with
  | nil => rfl
  | cons kv rest ih =>
    by_cases hk : kv.1 = key
    · simpa [Header.Del, List.filter_cons, hk] using ih
    · have hne : (key == kv.1) = false := by
        simpa [beq_eq_false_iff_ne] using fun h' => hk h'.symm
      simp only [Header.Del] at ih ⊢
      rw [List.filter_cons_of_pos (by simpa using hk)]
      cases kv with
      | mk k v => simpa [List.lookup, hne] using ih

theorem list_lookup_append_of_none {α β : Type} [BEq α] (xs ys : List (α × β)) (key : α)
    (h : xs.lookup key = none) : (xs ++ ys).lookup key = ys.lookup key := by
  induction xs with
  | nil => rfl
  | cons kv rest ih =>
    cases kv with
    | mk k v =>
      simp only [List.lookup, List.cons_append] at h ⊢
      cases hk : key == k with
      | true => simp [hk] at h
      | false =>
        simp only [hk] at h ⊢
        exact ih h

theorem header_Get_Set (h : Header) (key value : String) :
    (Header.Set h key value).Get key = value := by
  simp [Header.Get, Header.Set, list_lookup_append_of_none _ _ _ (header_lookup_Del h key),
    List.lookup]

theorem roundTrip_userAgent {α : Type} (c : Client) (dec : α → Json → Except DecodeError α)
    (zero : α) (req sentReq : Request) (hmem : sentReq ∈ (c.roundTrip dec zero req).sent) :
    sentReq.Header.Get "User-Agent" = UserAgent := by
  rw [roundTrip_sent, List.mem_singleton] at hmem
  subst hmem
  exact header_Get_Set _ _ _

/-- C10: every request that `SearchReleases` or `GetRelease` hands to `httpClient.Do`
carries the header `User-Agent` with the value of the constant `UserAgent`, for every
query and every id. -/
theorem user_agent_always_sent (c : Client) :
    (∀ query req, req ∈ (c.SearchReleases query).sent →
      req.Header.Get "User-Agent" = UserAgent) ∧
    (∀ id req, req ∈ (c.GetRelease id).sent → req.Header.Get "User-Agent" = UserAgent) := by
  constructor
  · intro query req hmem
    rw [SearchReleases_def] at hmem
    cases hP : Parse (ascii (BaseURL ++ "/release/")) with
    | error e => simp [hP] at hmem
    | ok u =>
      simp only [hP] at hmem
      generalize NewRequest _ _ = built at hmem
      cases built with
      | error e => simp at hmem
      | ok req0 => exact roundTrip_userAgent c _ _ req0 req hmem
  · intro id req hmem
    rw [GetRelease_def] at hmem
    cases hP : Parse (ascii (BaseURL ++ "/release/") ++ id) with
    | error e => simp [hP] at hmem
    | ok u =>
      simp only [hP] at hmem
      generalize NewRequest _ _ = built at hmem
      cases built with
      | error e => simp at hmem
      | ok req0 => exact roundTrip_userAgent c _ _ req0 req hmem

/-- The witness for C10: the requests for the query `Nevermind` and the id `abc-123`. -/
theorem user_agent_always_sent_witness :
    nevermindRequest ∈ (refusing.SearchReleases (ascii "Nevermind")).sent ∧
    nevermindRequest.Header.Get "User-Agent" = UserAgent ∧
    abc123Request ∈ (refusing.GetRelease (ascii "abc-123")).sent ∧
    abc123Request.Header.Get "User-Agent" = UserAgent :=
  ⟨by decide!,
   (user_agent_always_sent refusing).1 (ascii "Nevermind") nevermindRequest (by decide!),
   by decide!,
   (user_agent_always_sent refusing).2 (ascii "abc-123") abc123Request (by decide!)⟩

/-! ## Decoding what was encoded -/

theorem decodeInt_val (cur n : GoInt) : decodeInt cur (.int n.val) = .ok n := by
  have h := n.property
  simp only [decodeInt, h, and_self, dite_true]

theorem decodeElems_map {α : Type} (zero : α) (dec : α → Json → Except DecodeError α)
    (enc : α → Json) (f : α → α) (h : ∀ x, dec zero (enc x) = .ok (f x)) (xs : List α) :
    decodeElems zero dec [] (xs.map enc) = .ok (xs.map f) := by
  induction xs with
  | nil => rfl
  | cons x rest ih => simp [decodeElems, h, ih]

theorem decodeSlice_encodeSlice {α : Type} (goType : String) (zero : α)
    (dec : α → Json → Except DecodeError α) (enc : α → Json) (f : α → α)
    (h : ∀ x, dec zero (enc x) = .ok (f x)) (s : GoSlice α) :
    decodeSlice goType zero dec .nil (encodeSlice enc s) = .ok (GoSlice.fresh f s) := by
  cases s with
  | nil => rfl
  | make items spare =>
    simp only [encodeSlice, decodeSlice, GoSlice.backing, decodeElems_map zero dec enc f h,
      GoSlice.fresh, List.length_map, List.drop_nil]
    cases items <;> simp

theorem credit_decode_encode (c : Credit) : Credit.decode {} c.encode = .ok c := by
  simp +decide [Credit.decode, Credit.encode, decodeStruct, decodeMembers, Credit.setField,
    decodeString, Except.map]

theorem release_decode_encode (r : Release) : Release.decode {} r.encode = .ok r.fresh := by
  have hc := decodeSlice_encodeSlice "[]struct" {} Credit.decode Credit.encode id
    (fun c => credit_decode_encode c) r.ArtistCredit
  simp +decide [Release.decode, Release.encode, decodeStruct, decodeMembers, Release.setField,
    decodeString, Except.map, decodeInt_val, hc, Release.fresh]

theorem searchResponse_decode_encode (r : SearchResponse) :
    SearchResponse.decode {} r.encode = .ok r.fresh := by
  have hc := decodeSlice_encodeSlice "[]musicbrainz.Release" {} Release.decode Release.encode
    Release.fresh (fun c => release_decode_encode c) r.Releases
  simp +decide [SearchResponse.decode, SearchResponse.encode, decodeStruct, decodeMembers,
    SearchResponse.setField, decodeString, Except.map, decodeInt_val, hc, SearchResponse.fresh]

/-! ## What a decoded struct owes to the members of the object -/

theorem foldName_of_keyMatches (name key : String) (h : keyMatches name key = true) :
    foldName key = foldName name := by
  simp only [keyMatches, Bool.or_eq_true, beq_iff_eq] at h
  rcases h with h | h
  · rw [h]
  · exact h

theorem keyMatches_exclusive (a b key : String) (hab : foldName a ≠ foldName b)
    (ha : keyMatches a key = true) : keyMatches b key = false := by
  cases hb : keyMatches b key with
  | false => rfl
  | true =>
    exact absurd ((foldName_of_keyMatches a key ha).symm.trans (foldName_of_keyMatches b key hb)) hab

/-- An invariant between the struct being filled and the member seen last for `name`
holds at the end of the object when every member keeps it. -/
theorem decodeMembers_invariant {α : Type}
    (setField : α → String → Json → Except DecodeError α) (name : String)
    (P : α → Option Json → Prop)
    (hstep : ∀ cur acc key value next, P cur acc → setField cur key value = .ok next →
      P next (if keyMatches name key then some value else acc))
    (members : List (String × Json)) :
    ∀ cur acc result, P cur acc → decodeMembers setField cur members = .ok result →
      P result
        (members.foldl (fun acc kv => if keyMatches name kv.1 then some kv.2 else acc) acc) := by
  induction members with
  | nil =>
    intro cur acc result hP h
    simp only [decodeMembers, Except.ok.injEq] at h
    subst h
    exact hP
  | cons kv rest ih =>
    intro cur acc result hP h
    obtain ⟨key, value⟩ := kv
    simp only [decodeMembers] at h
    cases hs : setField cur key value with
    | error e => simp [hs] at h
    | ok next =>
      simp only [hs] at h
      exact ih next _ result (hstep cur acc key value next hP hs) h

/-- The same for a whole struct decoded from `doc`, starting from nothing seen. -/
theorem decodeStruct_invariant {α : Type} (goType : String)
    (setField : α → String → Json → Except DecodeError α) (name : String)
    (P : α → Option Json → Prop)
    (hstep : ∀ cur acc key value next, P cur acc → setField cur key value = .ok next →
      P next (if keyMatches name key then some value else acc))
    (cur result : α) (doc : Json) (hP : P cur none)
    (h : decodeStruct goType setField cur doc = .ok result) : P result (doc.member name) := by
  cases doc with
  | null =>
    simp only [decodeStruct, Except.ok.injEq] at h
    subst h
    exact hP
  | obj members =>
    exact decodeMembers_invariant setField name P hstep members cur none result hP h
  | bool b => simp [decodeStruct] at h
  | int n => simp [decodeStruct] at h
  | real lit => simp [decodeStruct] at h
  | str s => simp [decodeStruct] at h
  | arr items => simp [decodeStruct] at h

theorem decodeElems_forall₂ {α : Type} (zero : α) (dec : α → Json → Except DecodeError α) :
    ∀ (items : List Json) (backing xs : List α),
      decodeElems zero dec backing items = .ok xs →
      List.Forall₂ (fun item x => ∃ base, dec base item = .ok x) items xs := by
  intro items
  induction items with
  | nil =>
    intro backing xs h
    simp only [decodeElems, Except.ok.injEq] at h
    subst h
    exact List.Forall₂.nil
  | cons j js ih =>
    intro backing xs h
    simp only [decodeElems] at h
    cases hd : dec (backing.headD zero) j with
    | error e => simp only [hd, reduceCtorEq] at h
    | ok x =>
      simp only [hd] at h
      cases hr : decodeElems zero dec backing.tail js with
      | error e => simp [hr] at h
      | ok rest =>
        simp only [hr, Except.ok.injEq] at h
        subst h
        exact List.Forall₂.cons ⟨_, hd⟩ (ih _ _ hr)

/-- A slice decoded from an array has one element per item, in the order of the items,
each the decoding of its item; decoded from `null` it is `nil`. -/
theorem decodeSlice_ok {α : Type} (goType : String) (zero : α)
    (dec : α → Json → Except DecodeError α) (cur s : GoSlice α) (value : Json)
    (h : decodeSlice goType zero dec cur value = .ok s) :
    (value = .null ∧ s = .nil) ∨
    ∃ items, value = .arr items ∧
      List.Forall₂ (fun item x => ∃ base, dec base item = .ok x) items s.items := by
  cases value with
  | null =>
    simp only [decodeSlice, Except.ok.injEq] at h
    exact Or.inl ⟨rfl, h.symm⟩
  | arr items =>
    right
    refine ⟨items, rfl, ?_⟩
    simp only [decodeSlice] at h
    cases hr : decodeElems zero dec cur.backing items with
    | error e => simp [hr] at h
    | ok xs =>
      simp only [hr] at h
      have hall := decodeElems_forall₂ zero dec items _ xs hr
      by_cases hlen : items.length = 0
      · simp only [hlen, if_true, Except.ok.injEq] at h
        subst h
        have : items = [] := List.length_eq_zero.mp hlen
        subst this
        exact List.Forall₂.nil
      · simp only [hlen, if_false, Except.ok.injEq] at h
        subst h
        exact hall
  | bool b => simp [decodeSlice] at h
  | int n => simp [decodeSlice] at h
  | real lit => simp [decodeSlice] at h
  | str s => simp [decodeSlice] at h
  | obj members => simp [decodeSlice] at h

theorem decodeSlice_elements {α : Type} (goType : String) (zero : α)
    (dec : α → Json → Except DecodeError α) (cur s : GoSlice α) (value : Json)
    (h : decodeSlice goType zero dec cur value = .ok s) :
    List.Forall₂ (fun item x => ∃ base, dec base item = .ok x)
      (Json.elements (some value)) s.items := by
  rcases decodeSlice_ok goType zero dec cur s value h with ⟨hv, hs⟩ | ⟨items, hv, hall⟩
  · subst hv; subst hs
    exact List.Forall₂.nil
  · subst hv
    exact hall

theorem except_map_eq_ok {ε α β : Type} (f : α → β) (x : Except ε α) (y : β)
    (h : Except.map f x = .ok y) : ∃ a, x = .ok a ∧ f a = y := by
  cases x with
  | error e => simp [Except.map] at h
  | ok a => exact ⟨a, rfl, by simpa [Except.map] using h⟩

theorem decodeInt_int (cur result : GoInt) (n : Int)
    (h : decodeInt cur (.int n) = .ok result) : result.val = n := by
  simp only [decodeInt] at h
  split at h
  · simp only [Except.ok.injEq] at h
    rw [← h]
  · simp at h

/-! ### Tracks -/

theorem track_member_position (t : Track) :
    t.encode.member "position" = some (.int t.Position.val) := by
  simp +decide [Track.encode, Json.member, List.foldl]

theorem track_setField_position (cur next : Track) (key : String) (value : Json)
    (hk : keyMatches "position" key = true) (h : Track.setField cur key value = .ok next) :
    decodeInt cur.Position value = .ok next.Position := by
  have h1 := keyMatches_exclusive "position" "id" key (by decide) hk
  simp only [Track.setField, h1, hk, if_true, Bool.false_eq_true, if_false] at h
  obtain ⟨a, ha, hn⟩ := except_map_eq_ok _ _ _ h
  rw [ha, ← hn]

theorem track_setField_other (cur next : Track) (key : String) (value : Json)
    (hk : keyMatches "position" key = false) (h : Track.setField cur key value = .ok next) :
    next.Position = cur.Position := by
  simp only [Track.setField, hk, Bool.false_eq_true, if_false] at h
  split_ifs at h
  · obtain ⟨a, _, hn⟩ := except_map_eq_ok _ _ _ h
    rw [← hn]
  · obtain ⟨a, _, hn⟩ := except_map_eq_ok _ _ _ h
    rw [← hn]
  · obtain ⟨a, _, hn⟩ := except_map_eq_ok _ _ _ h
    rw [← hn]
  · simp only [Except.ok.injEq] at h
    rw [← h]

/-- A decoded track has the position that its object states, whatever it is decoded into. -/
theorem track_decode_position (base t : Track) (item : Json)
    (h : Track.decode base item = .ok t) : positionKept item t.encode := by
  intro n hn
  rw [track_member_position]
  have key := decodeStruct_invariant "musicbrainz.Track" Track.setField "position"
    (fun (cur : Track) acc => ∀ m : Int, acc = some (.int m) → cur.Position.val = m)
    (by
      intro cur acc key value next hP hs
      by_cases hk : keyMatches "position" key = true
      · intro m hm
        simp only [hk, if_true, Option.some.injEq] at hm
        subst hm
        exact decodeInt_int _ _ _ (track_setField_position cur next key _ hk hs)
      · simp only [Bool.not_eq_true] at hk
        intro m hm
        simp only [hk, Bool.false_eq_true, if_false] at hm
        rw [track_setField_other cur next key value hk hs]
        exact hP m hm)
    base t item (by intro m hm; cases hm) h
  rw [key n hn]

/-! ### Media -/

theorem medium_member_position (m : Medium) :
    m.encode.member "position" = some (.int m.Position.val) := by
  simp +decide [Medium.encode, Json.member, List.foldl]

theorem medium_member_tracks (m : Medium) :
    Json.elements (m.encode.member "tracks") = m.Tracks.items.map Track.encode := by
  cases hT : m.Tracks <;>
    simp +decide [Medium.encode, Json.member, List.foldl, hT, encodeSlice, Json.elements,
      GoSlice.items]

theorem medium_setField_position (cur next : Medium) (key : String) (value : Json)
    (hk : keyMatches "position" key = true) (h : Medium.setField cur key value = .ok next) :
    decodeInt cur.Position value = .ok next.Position := by
  simp only [Medium.setField, hk, if_true] at h
  obtain ⟨a, ha, hn⟩ := except_map_eq_ok _ _ _ h
  rw [ha, ← hn]

theorem medium_setField_not_position (cur next : Medium) (key : String) (value : Json)
    (hk : keyMatches "position" key = false) (h : Medium.setField cur key value = .ok next) :
    next.Position = cur.Position := by
  simp only [Medium.setField, hk, Bool.false_eq_true, if_false] at h
  split_ifs at h
  · obtain ⟨a, _, hn⟩ := except_map_eq_ok _ _ _ h
    rw [← hn]
  · obtain ⟨a, _, hn⟩ := except_map_eq_ok _ _ _ h
    rw [← hn]
  · simp only [Except.ok.injEq] at h
    rw [← h]

theorem medium_setField_tracks (cur next : Medium) (key : String) (value : Json)
    (hk : keyMatches "tracks" key = true) (h : Medium.setField cur key value = .ok next) :
    decodeSlice "[]musicbrainz.Track" {} Track.decode cur.Tracks value = .ok next.Tracks := by
  have h1 := keyMatches_exclusive "tracks" "position" key (by decide) hk
  have h2 := keyMatches_exclusive "tracks" "format" key (by decide) hk
  simp only [Medium.setField, h1, h2, hk, if_true, Bool.false_eq_true, if_false] at h
  obtain ⟨a, ha, hn⟩ := except_map_eq_ok _ _ _ h
  rw [ha, ← hn]

theorem medium_setField_not_tracks (cur next : Medium) (key : String) (value : Json)
    (hk : keyMatches "tracks" key = false) (h : Medium.setField cur key value = .ok next) :
    next.Tracks = cur.Tracks := by
  simp only [Medium.setField, hk, Bool.false_eq_true, if_false] at h
  split_ifs at h
  · obtain ⟨a, _, hn⟩ := except_map_eq_ok _ _ _ h
    rw [← hn]
  · obtain ⟨a, _, hn⟩ := except_map_eq_ok _ _ _ h
    rw [← hn]
  · simp only [Except.ok.injEq] at h
    rw [← h]

theorem medium_decode_position (base m : Medium) (item : Json)
    (h : Medium.decode base item = .ok m) : positionKept item m.encode := by
  intro n hn
  rw [medium_member_position]
  have key := decodeStruct_invariant "musicbrainz.Medium" Medium.setField "position"
    (fun (cur : Medium) acc => ∀ k : Int, acc = some (.int k) → cur.Position.val = k)
    (by
      intro cur acc key value next hP hs
      by_cases hk : keyMatches "position" key = true
      · intro k hm
        simp only [hk, if_true, Option.some.injEq] at hm
        subst hm
        exact decodeInt_int _ _ _ (medium_setField_position cur next key _ hk hs)
      · simp only [Bool.not_eq_true] at hk
        intro k hm
        simp only [hk, Bool.false_eq_true, if_false] at hm
        rw [medium_setField_not_position cur next key value hk hs]
        exact hP k hm)
    base m item (by intro k hm; cases hm) h
  rw [key n hn]

theorem forall₂_tracks (items : List Json) (tracks : List Track)
    (h : List.Forall₂ (fun item x => ∃ base, Track.decode base item = .ok x) items tracks) :
    List.Forall₂ positionKept items (tracks.map Track.encode) := by
  induction h with
  | nil => exact List.Forall₂.nil
  | cons hd _ ih =>
    obtain ⟨base, hb⟩ := hd
    exact List.Forall₂.cons (track_decode_position base _ _ hb) ih

theorem medium_decode_tracks (base m : Medium) (item : Json)
    (h : Medium.decode base item = .ok m) : tracksKept item m.encode := by
  intro items hitems
  rw [medium_member_tracks]
  have key := decodeStruct_invariant "musicbrainz.Medium" Medium.setField "tracks"
    (fun (cur : Medium) acc => ∀ given, acc = some (.arr given) →
      List.Forall₂ positionKept given (cur.Tracks.items.map Track.encode))
    (by
      intro cur acc key value next hP hs
      by_cases hk : keyMatches "tracks" key = true
      · intro given hm
        simp only [hk, if_true, Option.some.injEq] at hm
        subst hm
        have hdec := medium_setField_tracks cur next key _ hk hs
        exact forall₂_tracks _ _ (decodeSlice_elements _ _ _ _ _ _ hdec)
      · simp only [Bool.not_eq_true] at hk
        intro given hm
        simp only [hk, Bool.false_eq_true, if_false] at hm
        rw [medium_setField_not_tracks cur next key value hk hs]
        exact hP given hm)
    base m item (by intro given hm; cases hm) h
  exact key items hitems

theorem forall₂_media (items : List Json) (media : List Medium)
    (h : List.Forall₂ (fun item x => ∃ base, Medium.decode base item = .ok x) items media) :
    List.Forall₂ mediumKept items (media.map Medium.encode) := by
  induction h with
  | nil => exact List.Forall₂.nil
  | cons hd _ ih =>
    obtain ⟨base, hb⟩ := hd
    exact List.Forall₂.cons
      ⟨medium_decode_position base _ _ hb, medium_decode_tracks base _ _ hb⟩ ih

/-! ### Release details -/

theorem releaseDetail_member_media (r : ReleaseDetail) :
    Json.elements (r.encode.member "media") = r.Media.items.map Medium.encode := by
  cases hM : r.Media <;>
    simp +decide [ReleaseDetail.encode, Json.member, List.foldl, hM, encodeSlice,
      Json.elements, GoSlice.items]

theorem releaseDetail_setField_media (cur next : ReleaseDetail) (key : String) (value : Json)
    (hk : keyMatches "media" key = true) (h : ReleaseDetail.setField cur key value = .ok next) :
    decodeSlice "[]musicbrainz.Medium" {} Medium.decode cur.Media value = .ok next.Media := by
  have h1 := keyMatches_exclusive "media" "id" key (by decide) hk
  have h2 := keyMatches_exclusive "media" "title" key (by decide) hk
  simp only [ReleaseDetail.setField, h1, h2, hk, if_true, Bool.false_eq_true, if_false] at h
  obtain ⟨a, ha, hn⟩ := except_map_eq_ok _ _ _ h
  rw [ha, ← hn]

theorem releaseDetail_setField_not_media (cur next : ReleaseDetail) (key : String)
    (value : Json) (hk : keyMatches "media" key = false)
    (h : ReleaseDetail.setField cur key value = .ok next) : next.Media = cur.Media := by
  simp only [ReleaseDetail.setField, hk, Bool.false_eq_true, if_false] at h
  split_ifs at h
  · obtain ⟨a, _, hn⟩ := except_map_eq_ok _ _ _ h
    rw [← hn]
  · obtain ⟨a, _, hn⟩ := except_map_eq_ok _ _ _ h
    rw [← hn]
  · obtain ⟨a, _, hn⟩ := except_map_eq_ok _ _ _ h
    rw [← hn]
  · simp only [Except.ok.injEq] at h
    rw [← h]

/-- The media of a decoded release, once encoded, keep the order and the positions of
the media and tracks of the document. -/
theorem releaseDetail_decode_media (base r : ReleaseDetail) (doc : Json)
    (h : ReleaseDetail.decode base doc = .ok r) : mediaKept doc r.encode := by
  intro items hitems
  rw [releaseDetail_member_media]
  have key := decodeStruct_invariant "musicbrainz.ReleaseDetail" ReleaseDetail.setField "media"
    (fun (cur : ReleaseDetail) acc => ∀ given, acc = some (.arr given) →
      List.Forall₂ mediumKept given (cur.Media.items.map Medium.encode))
    (by
      intro cur acc key value next hP hs
      by_cases hk : keyMatches "media" key = true
      · intro given hm
        simp only [hk, if_true, Option.some.injEq] at hm
        subst hm
        have hdec := releaseDetail_setField_media cur next key _ hk hs
        exact forall₂_media _ _ (decodeSlice_elements _ _ _ _ _ _ hdec)
      · simp only [Bool.not_eq_true] at hk
        intro given hm
        simp only [hk, Bool.false_eq_true, if_false] at hm
        rw [releaseDetail_setField_not_media cur next key value hk hs]
        exact hP given hm)
    base r doc (by intro given hm; cases hm) h
  exact key items hitems

/-! ### Fields passed through, in general -/

theorem decodeStruct_stringKept {α : Type} (goType : String)
    (setField : α → String → Json → Except DecodeError α) (name : String) (field : α → String)
    (enc : α → Json) (henc : ∀ x, (enc x).member name = some (.str (field x)))
    (hset : ∀ cur key value next, keyMatches name key = true →
      setField cur key value = .ok next → decodeString (field cur) value = .ok (field next))
    (hkeep : ∀ cur key value next, keyMatches name key = false →
      setField cur key value = .ok next → field next = field cur)
    (base result : α) (doc : Json) (h : decodeStruct goType setField base doc = .ok result) :
    stringKept name doc (enc result) := by
  intro s hs
  rw [henc]
  have key := decodeStruct_invariant goType setField name
    (fun (cur : α) acc => ∀ t : String, acc = some (.str t) → field cur = t)
    (by
      intro cur acc key value next hP hstep
      by_cases hk : keyMatches name key = true
      · intro t hm
        simp only [hk, if_true, Option.some.injEq] at hm
        subst hm
        have := hset cur key _ next hk hstep
        simp only [decodeString, Except.ok.injEq] at this
        exact this.symm
      · simp only [Bool.not_eq_true] at hk
        intro t hm
        simp only [hk, Bool.false_eq_true, if_false] at hm
        rw [hkeep cur key value next hk hstep]
        exact hP t hm)
    base result doc (by intro t hm; cases hm) h
  rw [key s hs]

theorem decodeStruct_intKept {α : Type} (goType : String)
    (setField : α → String → Json → Except DecodeError α) (name : String) (field : α → GoInt)
    (enc : α → Json) (henc : ∀ x, (enc x).member name = some (.int (field x).val))
    (hset : ∀ cur key value next, keyMatches name key = true →
      setField cur key value = .ok next → decodeInt (field cur) value = .ok (field next))
    (hkeep : ∀ cur key value next, keyMatches name key = false →
      setField cur key value = .ok next → field next = field cur)
    (base result : α) (doc : Json) (h : decodeStruct goType setField base doc = .ok result) :
    intKept name doc (enc result) := by
  intro n hn
  rw [henc]
  have key := decodeStruct_invariant goType setField name
    (fun (cur : α) acc => ∀ m : Int, acc = some (.int m) → (field cur).val = m)
    (by
      intro cur acc key value next hP hstep
      by_cases hk : keyMatches name key = true
      · intro m hm
        simp only [hk, if_true, Option.some.injEq] at hm
        subst hm
        exact decodeInt_int _ _ _ (hset cur key _ next hk hstep)
      · simp only [Bool.not_eq_true] at hk
        intro m hm
        simp only [hk, Bool.false_eq_true, if_false] at hm
        rw [hkeep cur key value next hk hstep]
        exact hP m hm)
    base result doc (by intro m hm; cases hm) h
  rw [key n hn]

theorem forall₂_encoded {β : Type} (dec : β → Json → Except DecodeError β) (enc : β → Json)
    (R : Json → Json → Prop) (hR : ∀ base item x, dec base item = .ok x → R item (enc x))
    (items : List Json) (xs : List β)
    (h : List.Forall₂ (fun item x => ∃ base, dec base item = .ok x) items xs) :
    List.Forall₂ R items (xs.map enc) := by
  induction h with
  | nil => exact List.Forall₂.nil
  | cons hd _ ih =>
    obtain ⟨base, hb⟩ := hd
    exact List.Forall₂.cons (hR base _ _ hb) ih

theorem decodeStruct_sliceKept {α β : Type} (goType sliceType : String)
    (setField : α → String → Json → Except DecodeError α) (name : String)
    (field : α → GoSlice β) (enc : α → Json) (zero : β)
    (dec : β → Json → Except DecodeError β) (encElem : β → Json) (R : Json → Json → Prop)
    (henc : ∀ x, Json.elements ((enc x).member name) = (field x).items.map encElem)
    (hR : ∀ base item x, dec base item = .ok x → R item (encElem x))
    (hset : ∀ cur key value next, keyMatches name key = true →
      setField cur key value = .ok next →
      decodeSlice sliceType zero dec (field cur) value = .ok (field next))
    (hkeep : ∀ cur key value next, keyMatches name key = false →
      setField cur key value = .ok next → field next = field cur)
    (base result : α) (doc : Json) (h : decodeStruct goType setField base doc = .ok result) :
    ∀ items, doc.member name = some (.arr items) →
      List.Forall₂ R items (Json.elements ((enc result).member name)) := by
  intro items hitems
  rw [henc]
  have key := decodeStruct_invariant goType setField name
    (fun (cur : α) acc => ∀ given, acc = some (.arr given) →
      List.Forall₂ R given ((field cur).items.map encElem))
    (by
      intro cur acc key value next hP hstep
      by_cases hk : keyMatches name key = true
      · intro given hm
        simp only [hk, if_true, Option.some.injEq] at hm
        subst hm
        have hdec := hset cur key _ next hk hstep
        exact forall₂_encoded dec encElem R hR _ _ (decodeSlice_elements _ _ _ _ _ _ hdec)
      · simp only [Bool.not_eq_true] at hk
        intro given hm
        simp only [hk, Bool.false_eq_true, if_false] at hm
        rw [hkeep cur key value next hk hstep]
        exact hP given hm)
    base result doc (by intro given hm; cases hm) h
  exact key items hitems

/-! ### Credits, releases, search responses -/

theorem credit_decode_kept (base x : Credit) (item : Json)
    (h : Credit.decode base item = .ok x) : stringKept "name" item x.encode := by
  refine decodeStruct_stringKept "struct" Credit.setField "name" Credit.Name Credit.encode
    (fun x => by simp +decide [Credit.encode, Json.member, List.foldl]) ?_ ?_ base x item h
  · intro cur key value next hk hs
    simp only [Credit.setField, hk, if_true] at hs
    obtain ⟨a, ha, hn⟩ := except_map_eq_ok _ _ _ hs
    rw [ha, ← hn]
  · intro cur key value next hk hs
    simp only [Credit.setField, hk, Bool.false_eq_true, if_false, Except.ok.injEq] at hs
    rw [← hs]

theorem release_member_encode (r : Release) :
    r.encode.member "id" = some (.str r.ID) ∧ r.encode.member "title" = some (.str r.Title) ∧
    r.encode.member "status" = some (.str r.Status) ∧
    r.encode.member "date" = some (.str r.Date) ∧
    r.encode.member "score" = some (.int r.Score.val) ∧
    Json.elements (r.encode.member "artist-credit") = r.ArtistCredit.items.map Credit.encode := by
  refine ⟨?_, ?_, ?_, ?_, ?_, ?_⟩
  · simp +decide [Release.encode, Json.member, List.foldl]
  · simp +decide [Release.encode, Json.member, List.foldl]
  · simp +decide [Release.encode, Json.member, List.foldl]
  · simp +decide [Release.encode, Json.member, List.foldl]
  · simp +decide [Release.encode, Json.member, List.foldl]
  · cases hC : r.ArtistCredit <;>
      simp +decide [Release.encode, Json.member, List.foldl, hC, encodeSlice, Json.elements,
        GoSlice.items]

theorem release_setField_keep (cur next : Release) (key : String) (value : Json)
    (h : Release.setField cur key value = .ok next) :
    (keyMatches "id" key = false → next.ID = cur.ID) ∧
    (keyMatches "title" key = false → next.Title = cur.Title) ∧
    (keyMatches "status" key = false → next.Status = cur.Status) ∧
    (keyMatches "date" key = false → next.Date = cur.Date) ∧
    (keyMatches "score" key = false → next.Score = cur.Score) ∧
    (keyMatches "artist-credit" key = false → next.ArtistCredit = cur.ArtistCredit) := by
  unfold Release.setField at h
  split_ifs at h with h1 h2 h3 h4 h5 h6
  · obtain ⟨a, _, hn⟩ := except_map_eq_ok _ _ _ h
    subst hn
    exact ⟨fun hk => by simp [hk] at h1, fun _ => rfl, fun _ => rfl, fun _ => rfl, fun _ => rfl,
      fun _ => rfl⟩
  · obtain ⟨a, _, hn⟩ := except_map_eq_ok _ _ _ h
    subst hn
    exact ⟨fun _ => rfl, fun hk => by simp [hk] at h2, fun _ => rfl, fun _ => rfl, fun _ => rfl,
      fun _ => rfl⟩
  · obtain ⟨a, _, hn⟩ := except_map_eq_ok _ _ _ h
    subst hn
    exact ⟨fun _ => rfl, fun _ => rfl, fun hk => by simp [hk] at h3, fun _ => rfl, fun _ => rfl,
      fun _ => rfl⟩
  · obtain ⟨a, _, hn⟩ := except_map_eq_ok _ _ _ h
    subst hn
    exact ⟨fun _ => rfl, fun _ => rfl, fun _ => rfl, fun hk => by simp [hk] at h4, fun _ => rfl,
      fun _ => rfl⟩
  · obtain ⟨a, _, hn⟩ := except_map_eq_ok _ _ _ h
    subst hn
    exact ⟨fun _ => rfl, fun _ => rfl, fun _ => rfl, fun _ => rfl, fun hk => by simp [hk] at h5,
      fun _ => rfl⟩
  · obtain ⟨a, _, hn⟩ := except_map_eq_ok _ _ _ h
    subst hn
    exact ⟨fun _ => rfl, fun _ => rfl, fun _ => rfl, fun _ => rfl, fun _ => rfl,
      fun hk => by simp [hk] at h6⟩
  · simp only [Except.ok.injEq] at h
    subst h
    exact ⟨fun _ => rfl, fun _ => rfl, fun _ => rfl, fun _ => rfl, fun _ => rfl, fun _ => rfl⟩

theorem release_setField_set (cur next : Release) (key : String) (value : Json)
    (h : Release.setField cur key value = .ok next) :
    (keyMatches "id" key = true → decodeString cur.ID value = .ok next.ID) ∧
    (keyMatches "title" key = true → decodeString cur.Title value = .ok next.Title) ∧
    (keyMatches "status" key = true → decodeString cur.Status value = .ok next.Status) ∧
    (keyMatches "date" key = true → decodeString cur.Date value = .ok next.Date) ∧
    (keyMatches "score" key = true → decodeInt cur.Score value = .ok next.Score) ∧
    (keyMatches "artist-credit" key = true →
      decodeSlice "[]struct" {} Credit.decode cur.ArtistCredit value =
        .ok next.ArtistCredit) := by
  have hx : ∀ a b : String, foldName a ≠ foldName b → keyMatches a key = true →
      keyMatches b key = false := fun a b hne ha => keyMatches_exclusive a b key hne ha
  refine ⟨fun hk => ?_, fun hk => ?_, fun hk => ?_, fun hk => ?_, fun hk => ?_, fun hk => ?_⟩
  · simp only [Release.setField, hk, if_true] at h
    obtain ⟨a, ha, hn⟩ := except_map_eq_ok _ _ _ h
    rw [ha, ← hn]
  · simp only [Release.setField, hk, hx "title" "id" (by decide) hk, if_true,
      Bool.false_eq_true, if_false] at h
    obtain ⟨a, ha, hn⟩ := except_map_eq_ok _ _ _ h
    rw [ha, ← hn]
  · simp only [Release.setField, hk, hx "status" "id" (by decide) hk,
      hx "status" "title" (by decide) hk, if_true, Bool.false_eq_true, if_false] at h
    obtain ⟨a, ha, hn⟩ := except_map_eq_ok _ _ _ h
    rw [ha, ← hn]
  · simp only [Release.setField, hk, hx "date" "id" (by decide) hk,
      hx "date" "title" (by decide) hk, hx "date" "status" (by decide) hk, if_true,
      Bool.false_eq_true, if_false] at h
    obtain ⟨a, ha, hn⟩ := except_map_eq_ok _ _ _ h
    rw [ha, ← hn]
  · simp only [Release.setField, hk, hx "score" "id" (by decide) hk,
      hx "score" "title" (by decide) hk, hx "score" "status" (by decide) hk,
      hx "score" "date" (by decide) hk, if_true, Bool.false_eq_true, if_false] at h
    obtain ⟨a, ha, hn⟩ := except_map_eq_ok _ _ _ h
    rw [ha, ← hn]
  · simp only [Release.setField, hk, hx "artist-credit" "id" (by decide) hk,
      hx "artist-credit" "title" (by decide) hk, hx "artist-credit" "status" (by decide) hk,
      hx "artist-credit" "date" (by decide) hk, hx "artist-credit" "score" (by decide) hk,
      if_true, Bool.false_eq_true, if_false] at h
    obtain ⟨a, ha, hn⟩ := except_map_eq_ok _ _ _ h
    rw [ha, ← hn]

/-- A decoded release, once encoded, states what its object states: id, title, status,
date, score and the credited names in order. -/
theorem release_decode_kept (base x : Release) (item : Json)
    (h : Release.decode base item = .ok x) : releaseKept item x.encode := by
  have henc := release_member_encode
  refine ⟨?_, ?_, ?_, ?_, ?_, ?_⟩
  · exact decodeStruct_stringKept "musicbrainz.Release" Release.setField "id" Release.ID
      Release.encode (fun r => (henc r).1)
      (fun cur key value next hk hs => (release_setField_set cur next key value hs).1 hk)
      (fun cur key value next hk hs => (release_setField_keep cur next key value hs).1 hk)
      base x item h
  · exact decodeStruct_stringKept "musicbrainz.Release" Release.setField "title" Release.Title
      Release.encode (fun r => (henc r).2.1)
      (fun cur key value next hk hs => (release_setField_set cur next key value hs).2.1 hk)
      (fun cur key value next hk hs => (release_setField_keep cur next key value hs).2.1 hk)
      base x item h
  · exact decodeStruct_stringKept "musicbrainz.Release" Release.setField "status"
      Release.Status Release.encode (fun r => (henc r).2.2.1)
      (fun cur key value next hk hs => (release_setField_set cur next key value hs).2.2.1 hk)
      (fun cur key value next hk hs => (release_setField_keep cur next key value hs).2.2.1 hk)
      base x item h
  · exact decodeStruct_stringKept "musicbrainz.Release" Release.setField "date" Release.Date
      Release.encode (fun r => (henc r).2.2.2.1)
      (fun cur key value next hk hs => (release_setField_set cur next key value hs).2.2.2.1 hk)
      (fun cur key value next hk hs => (release_setField_keep cur next key value hs).2.2.2.1 hk)
      base x item h
  · exact decodeStruct_intKept "musicbrainz.Release" Release.setField "score" Release.Score
      Release.encode (fun r => (henc r).2.2.2.2.1)
      (fun cur key value next hk hs => (release_setField_set cur next key value hs).2.2.2.2.1 hk)
      (fun cur key value next hk hs =>
        (release_setField_keep cur next key value hs).2.2.2.2.1 hk)
      base x item h
  · exact decodeStruct_sliceKept "musicbrainz.Release" "[]struct" Release.setField
      "artist-credit" Release.ArtistCredit Release.encode {} Credit.decode Credit.encode
      (stringKept "name") (fun r => (henc r).2.2.2.2.2)
      (fun base item c hc => credit_decode_kept base c item hc)
      (fun cur key value next hk hs => (release_setField_set cur next key value hs).2.2.2.2.2 hk)
      (fun cur key value next hk hs =>
        (release_setField_keep cur next key value hs).2.2.2.2.2 hk)
      base x item h

theorem searchResponse_member_encode (r : SearchResponse) :
    r.encode.member "created" = some (.str r.Created) ∧
    r.encode.member "count" = some (.int r.Count.val) ∧
    r.encode.member "offset" = some (.int r.Offset.val) ∧
    Json.elements (r.encode.member "releases") = r.Releases.items.map Release.encode := by
  refine ⟨?_, ?_, ?_, ?_⟩
  · simp +decide [SearchResponse.encode, Json.member, List.foldl]
  · simp +decide [SearchResponse.encode, Json.member, List.foldl]
  · simp +decide [SearchResponse.encode, Json.member, List.foldl]
  · cases hC : r.Releases <;>
      simp +decide [SearchResponse.encode, Json.member, List.foldl, hC, encodeSlice,
        Json.elements, GoSlice.items]

theorem searchResponse_setField_keep (cur next : SearchResponse) (key : String) (value : Json)
    (h : SearchResponse.setField cur key value = .ok next) :
    (keyMatches "created" key = false → next.Created = cur.Created) ∧
    (keyMatches "count" key = false → next.Count = cur.Count) ∧
    (keyMatches "offset" key = false → next.Offset = cur.Offset) := by
  unfold SearchResponse.setField at h
  split_ifs at h with h1 h2 h3 h4
  · obtain ⟨a, _, hn⟩ := except_map_eq_ok _ _ _ h
    subst hn
    exact ⟨fun hk => by simp [hk] at h1, fun _ => rfl, fun _ => rfl⟩
  · obtain ⟨a, _, hn⟩ := except_map_eq_ok _ _ _ h
    subst hn
    exact ⟨fun _ => rfl, fun hk => by simp [hk] at h2, fun _ => rfl⟩
  · obtain ⟨a, _, hn⟩ := except_map_eq_ok _ _ _ h
    subst hn
    exact ⟨fun _ => rfl, fun _ => rfl, fun hk => by simp [hk] at h3⟩
  · obtain ⟨a, _, hn⟩ := except_map_eq_ok _ _ _ h
    subst hn
    exact ⟨fun _ => rfl, fun _ => rfl, fun _ => rfl⟩
  · simp only [Except.ok.injEq] at h
    subst h
    exact ⟨fun _ => rfl, fun _ => rfl, fun _ => rfl⟩

theorem searchResponse_setField_set (cur next : SearchResponse) (key : String) (value : Json)
    (h : SearchResponse.setField cur key value = .ok next) :
    (keyMatches "created" key = true → decodeString cur.Created value = .ok next.Created) ∧
    (keyMatches "count" key = true → decodeInt cur.Count value = .ok next.Count) ∧
    (keyMatches "offset" key = true → decodeInt cur.Offset value = .ok next.Offset) := by
  have hx : ∀ a b : String, foldName a ≠ foldName b → keyMatches a key = true →
      keyMatches b key = false := fun a b hne ha => keyMatches_exclusive a b key hne ha
  refine ⟨fun hk => ?_, fun hk => ?_, fun hk => ?_⟩
  · simp only [SearchResponse.setField, hk, if_true] at h
    obtain ⟨a, ha, hn⟩ := except_map_eq_ok _ _ _ h
    rw [ha, ← hn]
  · simp only [SearchResponse.setField, hk, hx "count" "created" (by decide) hk, if_true,
      Bool.false_eq_true, if_false] at h
    obtain ⟨a, ha, hn⟩ := except_map_eq_ok _ _ _ h
    rw [ha, ← hn]
  · simp only [SearchResponse.setField, hk, hx "offset" "created" (by decide) hk,
      hx "offset" "count" (by decide) hk, if_true, Bool.false_eq_true, if_false] at h
    obtain ⟨a, ha, hn⟩ := except_map_eq_ok _ _ _ h
    rw [ha, ← hn]

/-! ## net/url: cutting, escaping and unescaping -/

theorem cut_of_not_mem (sep : Fin 256) (s : Bytes) (h : sep ∉ s) : cut sep s = (s, [], false) := by
  induction s with
  | nil => rfl
  | cons c rest ih =>
    have hc : c ≠ sep := fun e => h (by simp [e])
    have hrest : sep ∉ rest := fun e => h (by simp [e])
    simp [cut, hc, ih hrest]

theorem cut_append_sep (sep : Fin 256) (xs ys : Bytes) (h : sep ∉ xs) :
    cut sep (xs ++ sep :: ys) = (xs, ys, true) := by
  induction xs with
  | nil => simp [cut]
  | cons c rest ih =>
    have hc : c ≠ sep := fun e => h (by simp [e])
    have hrest : sep ∉ rest := fun e => h (by simp [e])
    simp [cut, hc, ih hrest]

theorem splitOn_of_not_mem (sep : Fin 256) (s : Bytes) (h : sep ∉ s) : splitOn sep s = [s] := by
  induction s with
  | nil => rfl
  | cons c rest ih =>
    have hc : c ≠ sep := fun e => h (by simp [e])
    have hrest : sep ∉ rest := fun e => h (by simp [e])
    simp [splitOn, hc, ih hrest]

theorem splitOn_append_sep (sep : Fin 256) (xs ys : Bytes) (h : sep ∉ xs) :
    splitOn sep (xs ++ sep :: ys) = xs :: splitOn sep ys := by
  induction xs with
  | nil => simp [splitOn]
  | cons c rest ih =>
    have hc : c ≠ sep := fun e => h (by simp [e])
    have hrest : sep ∉ rest := fun e => h (by simp [e])
    simp [splitOn, hc, ih hrest]

set_option maxRecDepth 100000 in
theorem hex_round_trip : ∀ c : Fin 256,
    ishex (upperhex (c.val / 16)) = true ∧ ishex (upperhex (c.val % 16)) = true ∧
    (Fin.ofNat (unhex (upperhex (c.val / 16)) * 16 + unhex (upperhex (c.val % 16))) : Fin 256)
      = c := by
  decide

set_option maxRecDepth 100000 in
theorem query_unescaped_byte : ∀ c : Fin 256, shouldEscape c .encodeQueryComponent = false →
    c ≠ chr '%' ∧ c ≠ chr '+' ∧ c ≠ chr ' ' ∧ c ≠ chr '#' ∧ c ≠ chr '?' ∧ c ≠ chr '&' ∧
    c ≠ chr '=' ∧ c ≠ chr ';' ∧ isCTL c = false := by
  decide

set_option maxRecDepth 100000 in
theorem path_unescaped_byte : ∀ c : Fin 256, shouldEscape c .encodePath = false →
    c ≠ chr '%' ∧ c ≠ chr '#' ∧ c ≠ chr '?' ∧ isCTL c = false := by
  decide

theorem upperhex_byte : ∀ n : Fin 16,
    upperhex n.val ≠ chr '#' ∧ upperhex n.val ≠ chr '?' ∧ upperhex n.val ≠ chr '&' ∧
    upperhex n.val ≠ chr '=' ∧ upperhex n.val ≠ chr ';' ∧ isCTL (upperhex n.val) = false := by
  decide

theorem upperhex_div (c : Fin 256) :
    upperhex (c.val / 16) ≠ chr '#' ∧ upperhex (c.val / 16) ≠ chr '?' ∧
    upperhex (c.val / 16) ≠ chr '&' ∧ upperhex (c.val / 16) ≠ chr '=' ∧
    upperhex (c.val / 16) ≠ chr ';' ∧ isCTL (upperhex (c.val / 16)) = false :=
  upperhex_byte ⟨c.val / 16, by omega⟩

theorem upperhex_mod (c : Fin 256) :
    upperhex (c.val % 16) ≠ chr '#' ∧ upperhex (c.val % 16) ≠ chr '?' ∧
    upperhex (c.val % 16) ≠ chr '&' ∧ upperhex (c.val % 16) ≠ chr '=' ∧
    upperhex (c.val % 16) ≠ chr ';' ∧ isCTL (upperhex (c.val % 16)) = false :=
  upperhex_byte ⟨c.val % 16, by omega⟩

theorem escape_cons_query (c : Fin 256) (rest : Bytes) :
    escape (c :: rest) .encodeQueryComponent =
      if c = chr ' ' then chr '+' :: escape rest .encodeQueryComponent
      else if shouldEscape c .encodeQueryComponent then
        chr '%' :: upperhex (c.val / 16) :: upperhex (c.val % 16) ::
          escape rest .encodeQueryComponent
      else c :: escape rest .encodeQueryComponent := by
  simp [escape]

theorem escape_cons_path (c : Fin 256) (rest : Bytes) :
    escape (c :: rest) .encodePath =
      if shouldEscape c .encodePath then
        chr '%' :: upperhex (c.val / 16) :: upperhex (c.val % 16) :: escape rest .encodePath
      else c :: escape rest .encodePath := by
  simp [escape]

theorem unescape_percent (h1 h2 : Fin 256) (rest : Bytes) (mode : Encoding)
    (hmode : mode = .encodePath ∨ mode = .encodeQueryComponent)
    (hh1 : ishex h1 = true) (hh2 : ishex h2 = true) :
    unescape (chr '%' :: h1 :: h2 :: rest) mode =
      match unescape rest mode with
      | .error e => .error e
      | .ok t => .ok (Fin.ofNat (unhex h1 * 16 + unhex h2) :: t) := by
  rcases hmode with h | h <;> subst h <;> simp [unescape, hh1, hh2]

theorem unescape_plus_query (rest : Bytes) :
    unescape (chr '+' :: rest) .encodeQueryComponent =
      match unescape rest .encodeQueryComponent with
      | .error e => .error e
      | .ok t => .ok (chr ' ' :: t) := by
  have hp : chr '+' ≠ chr '%' := by decide
  rw [unescape.eq_def]
  simp [hp]

theorem unescape_plain (c : Fin 256) (rest : Bytes) (mode : Encoding)
    (hmode : mode = .encodePath ∨ mode = .encodeQueryComponent)
    (hc : c ≠ chr '%') (hplus : c ≠ chr '+' ∨ mode = .encodePath) :
    unescape (c :: rest) mode =
      match unescape rest mode with
      | .error e => .error e
      | .ok t => .ok (c :: t) := by
  rcases hmode with h | h <;> subst h
  · by_cases hp : c = chr '+'
    · subst hp
      rw [unescape.eq_def]
      simp [hc]
    · rw [unescape.eq_def]
      simp [hc, hp]
  · have hp : c ≠ chr '+' := by
      rcases hplus with h | h
      · exact h
      · cases h
    rw [unescape.eq_def]
    simp [hc, hp]

/-- The bytes that `QueryEscape` writes are none of `# ? & = ;` and no control byte. -/
theorem QueryEscape_bytes (s : Bytes) : ∀ b ∈ QueryEscape s,
    b ≠ chr '#' ∧ b ≠ chr '?' ∧ b ≠ chr '&' ∧ b ≠ chr '=' ∧ b ≠ chr ';' ∧ isCTL b = false := by
  induction s with
  | nil => intro b hb; simp [QueryEscape, escape] at hb
  | cons c rest ih =>
    intro b hb
    simp only [QueryEscape] at hb ih
    rw [escape_cons_query] at hb
    split_ifs at hb with h1 h2
    · rcases List.mem_cons.mp hb with h | h
      · subst h; decide
      · exact ih b h
    · rcases List.mem_cons.mp hb with h | h
      · subst h; decide
      · rcases List.mem_cons.mp h with h | h
        · subst h; exact upperhex_div c
        · rcases List.mem_cons.mp h with h | h
          · subst h; exact upperhex_mod c
          · exact ih b h
    · rcases List.mem_cons.mp hb with h | h
      · subst h
        have := query_unescaped_byte b (by simpa using h2)
        exact ⟨this.2.2.2.1, this.2.2.2.2.1, this.2.2.2.2.2.1, this.2.2.2.2.2.2.1,
          this.2.2.2.2.2.2.2.1, this.2.2.2.2.2.2.2.2⟩
      · exact ih b h

/-- Unescaping undoes `QueryEscape`, for every byte string. -/
theorem QueryUnescape_QueryEscape (s : Bytes) : QueryUnescape (QueryEscape s) = .ok s := by
  induction s with
  | nil => rfl
  | cons c rest ih =>
    simp only [QueryUnescape, QueryEscape] at ih ⊢
    rw [escape_cons_query]
    split_ifs with h1 h2
    · subst h1
      rw [unescape_plus_query, ih]
    · obtain ⟨hh1, hh2, hv⟩ := hex_round_trip c
      rw [unescape_percent _ _ _ _ (Or.inr rfl) hh1 hh2, ih, hv]
    · have hc := query_unescaped_byte c (by simpa using h2)
      rw [unescape_plain _ _ _ (Or.inr rfl) hc.1 (Or.inl hc.2.1), ih]

/-- Unescaping a path undoes `escape`, for every byte string. -/
theorem unescape_escape_path (s : Bytes) :
    unescape (escape s .encodePath) .encodePath = .ok s := by
  induction s with
  | nil => rfl
  | cons c rest ih =>
    rw [escape_cons_path]
    split_ifs with h2
    · obtain ⟨hh1, hh2, hv⟩ := hex_round_trip c
      rw [unescape_percent _ _ _ _ (Or.inl rfl) hh1 hh2, ih, hv]
    · have hc := path_unescaped_byte c (by simpa using h2)
      rw [unescape_plain _ _ _ (Or.inl rfl) hc.1 (Or.inr rfl), ih]

/-- A path without `%` unescapes to itself. -/
theorem unescape_path_of_no_percent (s : Bytes) (h : chr '%' ∉ s) :
    unescape s .encodePath = .ok s := by
  induction s with
  | nil => rfl
  | cons c rest ih =>
    have hc : c ≠ chr '%' := fun e => h (by simp [e])
    have hrest : chr '%' ∉ rest := fun e => h (by simp [e])
    rw [unescape_plain _ _ _ (Or.inl rfl) hc (Or.inr rfl), ih hrest]

/-- The bytes that `escape` writes for a path are neither `#` nor `?` nor control bytes. -/
theorem escape_path_bytes (s : Bytes) : ∀ b ∈ escape s .encodePath,
    b ≠ chr '#' ∧ b ≠ chr '?' ∧ isCTL b = false := by
  induction s with
  | nil => intro b hb; simp [escape] at hb
  | cons c rest ih =>
    intro b hb
    rw [escape_cons_path] at hb
    split_ifs at hb with h2
    · rcases List.mem_cons.mp hb with h | h
      · subst h; decide
      · rcases List.mem_cons.mp h with h | h
        · subst h
          have := upperhex_div c
          exact ⟨this.1, this.2.1, this.2.2.2.2.2⟩
        · rcases List.mem_cons.mp h with h | h
          · subst h
            have := upperhex_mod c
            exact ⟨this.1, this.2.1, this.2.2.2.2.2⟩
          · exact ih b h
    · rcases List.mem_cons.mp hb with h | h
      · subst h
        exact (path_unescaped_byte b (by simpa using h2)).2
      · exact ih b h

theorem escape_append (xs ys : Bytes) (mode : Encoding) :
    escape (xs ++ ys) mode = escape xs mode ++ escape ys mode := by
  induction xs with
  | nil => rfl
  | cons c rest ih =>
    simp only [List.cons_append, escape]
    split_ifs <;> simp [ih]

/-! ## net/url: parsing the URLs of this program -/

theorem any_ctl_false (s : Bytes) (h : ∀ b ∈ s, isCTL b = false) :
    s.any (fun b => decide (b.val < ' '.toNat) || b.val == 127) = false := by
  rw [List.any_eq_false]
  intro b hb
  have := h b hb
  simpa [isCTL] using this

theorem origin_bytes : ∀ b ∈ ascii "https://musicbrainz.org/",
    b ≠ chr '#' ∧ isCTL b = false := by
  decide!

theorem authority_bytes : ∀ b ∈ ascii "//musicbrainz.org/", b ≠ chr '?' := by
  decide!

theorem getLast?_query (front query : Bytes) (hquery : ∀ b ∈ query, b ≠ chr '?')
    (hne : query ≠ []) : (front ++ chr '?' :: query).getLast? ≠ some (chr '?') := by
  rw [List.getLast?_append_of_ne_nil front (List.cons_ne_nil _ _)]
  cases query with
  | nil => exact absurd rfl hne
  | cons q0 qs =>
    rw [List.getLast?_cons_cons]
    intro hl
    exact hquery _ (List.mem_of_getLast?_eq_some hl) rfl

/-- Parsing `https://musicbrainz.org/<tail>?<query>`: the scheme, the host, the query cut
at the first `?`, and the path handed to `setPath`. -/
theorem parse_with_query (tail query : Bytes)
    (htail : ∀ b ∈ tail, b ≠ chr '?' ∧ isCTL b = false)
    (hquery : ∀ b ∈ query, b ≠ chr '?' ∧ isCTL b = false) (hne : query ≠ []) :
    parse (ascii "https://musicbrainz.org/" ++ tail ++ chr '?' :: query) =
      URL.setPath { Scheme := ascii "https", Host := ascii "musicbrainz.org", RawQuery := query }
        (chr '/' :: tail) := by
  have hctl : (ascii "https://musicbrainz.org/" ++ tail ++ chr '?' :: query).any
      (fun b => decide (b.val < ' '.toNat) || b.val == 127) = false := by
    apply any_ctl_false
    intro b hb
    simp only [List.mem_append, List.mem_cons] at hb
    rcases hb with (hb | hb) | hb | hb
    · exact (origin_bytes b hb).2
    · exact (htail b hb).2
    · subst hb; decide
    · exact (hquery b hb).2
  have hstar : ascii "https://musicbrainz.org/" ++ tail ++ chr '?' :: query ≠ ascii "*" := by
    intro h
    have hl := congrArg List.length h
    rw [List.length_append, List.length_append] at hl
    have h1 : (ascii "https://musicbrainz.org/").length = 24 := rfl
    have h2 : (ascii "*").length = 1 := rfl
    omega
  have hscheme : getScheme (ascii "https://musicbrainz.org/" ++ tail ++ chr '?' :: query) =
      .ok (ascii "https", ascii "//musicbrainz.org/" ++ tail ++ chr '?' :: query) := rfl
  have hlast : (ascii "//musicbrainz.org/" ++ tail ++ chr '?' :: query).getLast? ≠
      some (chr '?') :=
    getLast?_query _ _ (fun b hb => (hquery b hb).1) hne
  have hcut : cut (chr '?') (ascii "//musicbrainz.org/" ++ tail ++ chr '?' :: query) =
      (ascii "//musicbrainz.org/" ++ tail, query, true) := by
    apply cut_append_sep
    intro hm
    rcases List.mem_append.mp hm with hm | hm
    · exact authority_bytes _ hm rfl
    · exact (htail _ hm).1 rfl
  have hlower : toLower (ascii "https") = ascii "https" := by decide!
  have hhttps : ascii "https" ≠ [] := by decide!
  have hhead : (ascii "//musicbrainz.org/" ++ tail).head? = some (chr '/') := rfl
  have hpre2 : (ascii "//").isPrefixOf (ascii "//musicbrainz.org/" ++ tail) = true := rfl
  have hdrop : (ascii "//musicbrainz.org/" ++ tail).drop 2 = ascii "musicbrainz.org/" ++ tail :=
    rfl
  have hcut2 : cut (chr '/') (ascii "musicbrainz.org/" ++ tail) =
      (ascii "musicbrainz.org", tail, true) := rfl
  have hauth : parseAuthority (ascii "musicbrainz.org") = .ok (ascii "musicbrainz.org") := by
    decide!
  unfold parse
  simp only [hctl, hstar, hscheme, hlast, hcut, hlower, hhttps, hhead, hpre2, hdrop, hcut2,
    hauth, decide_False, Bool.false_and, Bool.false_eq_true, if_false, ne_eq, not_true_eq_false,
    false_and, not_false_eq_true, true_or, and_self, if_true]

/-- Parsing `https://musicbrainz.org/<tail>` when the tail has no `?`. -/
theorem parse_without_query (tail : Bytes)
    (htail : ∀ b ∈ tail, b ≠ chr '?' ∧ isCTL b = false) :
    parse (ascii "https://musicbrainz.org/" ++ tail) =
      URL.setPath { Scheme := ascii "https", Host := ascii "musicbrainz.org" }
        (chr '/' :: tail) := by
  have hctl : (ascii "https://musicbrainz.org/" ++ tail).any
      (fun b => decide (b.val < ' '.toNat) || b.val == 127) = false := by
    apply any_ctl_false
    intro b hb
    rcases List.mem_append.mp hb with hb | hb
    · exact (origin_bytes b hb).2
    · exact (htail b hb).2
  have hstar : ascii "https://musicbrainz.org/" ++ tail ≠ ascii "*" := by
    intro h
    have hl := congrArg List.length h
    rw [List.length_append] at hl
    have h1 : (ascii "https://musicbrainz.org/").length = 24 := rfl
    have h2 : (ascii "*").length = 1 := rfl
    omega
  have hscheme : getScheme (ascii "https://musicbrainz.org/" ++ tail) =
      .ok (ascii "https", ascii "//musicbrainz.org/" ++ tail) := rfl
  have hmem : chr '?' ∉ ascii "//musicbrainz.org/" ++ tail := by
    intro hm
    rcases List.mem_append.mp hm with hm | hm
    · exact authority_bytes _ hm rfl
    · exact (htail _ hm).1 rfl
  have hlast : (ascii "//musicbrainz.org/" ++ tail).getLast? ≠ some (chr '?') :=
    fun hl => hmem (List.mem_of_getLast?_eq_some hl)
  have hcut := cut_of_not_mem (chr '?') _ hmem
  have hlower : toLower (ascii "https") = ascii "https" := by decide!
  have hhttps : ascii "https" ≠ [] := by decide!
  have hhead : (ascii "//musicbrainz.org/" ++ tail).head? = some (chr '/') := rfl
  have hpre2 : (ascii "//").isPrefixOf (ascii "//musicbrainz.org/" ++ tail) = true := rfl
  have hdrop : (ascii "//musicbrainz.org/" ++ tail).drop 2 = ascii "musicbrainz.org/" ++ tail :=
    rfl
  have hcut2 : cut (chr '/') (ascii "musicbrainz.org/" ++ tail) =
      (ascii "musicbrainz.org", tail, true) := rfl
  have hauth : parseAuthority (ascii "musicbrainz.org") = .ok (ascii "musicbrainz.org") := by
    decide!
  unfold parse
  simp only [hctl, hstar, hscheme, hlast, hcut, hlower, hhttps, hhead, hpre2, hdrop, hcut2,
    hauth, decide_False, Bool.false_and, Bool.false_eq_true, if_false, ne_eq, not_true_eq_false,
    false_and, not_false_eq_true, true_or, and_self, if_true]

theorem Parse_of_no_fragment (rawURL : Bytes) (h : chr '#' ∉ rawURL) :
    Parse rawURL = parse rawURL := by
  unfold Parse
  rw [cut_of_not_mem _ _ h]
  cases parse rawURL <;> simp

/-- Method `setPath` on a raw path that unescapes to `path`. -/
theorem setPath_of_unescape (u : URL) (p path : Bytes) (h : unescape p .encodePath = .ok path) :
    URL.setPath u p =
      .ok { u with Path := path, RawPath := if p = escape path .encodePath then [] else p } := by
  simp [URL.setPath, h]

/-- What `EscapedPath` gives for a path set by `setPath`: the raw path when it is a valid
encoding, the escaped path otherwise; either way it unescapes to the path. -/
theorem EscapedPath_unescapes (u : URL) (p path : Bytes) (hpath : path ≠ ascii "*") :
    ({ u with Path := path,
              RawPath := if p = escape path .encodePath then [] else p } : URL).EscapedPath = p ∨
    ({ u with Path := path,
              RawPath := if p = escape path .encodePath then [] else p } : URL).EscapedPath
      = escape path .encodePath := by
  by_cases h1 : p = escape path .encodePath
  · right
    simp [URL.EscapedPath, h1, hpath]
  · simp only [URL.EscapedPath, h1, if_false, hpath]
    split_ifs
    · exact Or.inl rfl
    · exact Or.inr rfl

/-! ## The requests that the client builds -/

theorem Parse_searchEndpoint :
    Parse (ascii (BaseURL ++ "/release/")) = .ok searchEndpoint := by
  decide!

theorem searchValues (query : Bytes) :
    Values.Set (Values.Set searchEndpoint.Query (ascii "query") query) (ascii "fmt")
        (ascii "json") =
      [(ascii "fmt", [ascii "json"]), (ascii "query", [query])] := by
  have h0 : searchEndpoint.Query = [] := by decide!
  have h1 : ascii "fmt" ≠ ascii "query" := by decide!
  have h2 : bytesLt (ascii "fmt") (ascii "query") = true := by decide!
  simp [h0, Values.Set, Values.modify, h1, h2]

theorem searchValues_Encode (query : Bytes) :
    Values.Encode [(ascii "fmt", [ascii "json"]), (ascii "query", [query])] =
      ascii "fmt=json&query=" ++ QueryEscape query := by
  have h1 : QueryEscape (ascii "fmt") = ascii "fmt" := by decide!
  have h2 : QueryEscape (ascii "json") = ascii "json" := by decide!
  have h3 : QueryEscape (ascii "query") = ascii "query" := by decide!
  simp only [Values.Encode, Values.items, List.map, h1, h2, h3, List.append_nil, joinAmp,
    List.singleton_append, List.cons_append, List.nil_append]
  rfl

/-- Method `String` of a URL `https://musicbrainz.org<path>?<query>`. -/
theorem String_musicbrainz (u : URL) (hs : u.Scheme = ascii "https") (ho : u.Opaque = [])
    (hh : u.Host = ascii "musicbrainz.org") (hf : u.Fragment = []) (hq : u.RawQuery ≠ [])
    (hp : u.EscapedPath.head? = some (chr '/')) :
    u.String = ascii "https://musicbrainz.org" ++ u.EscapedPath ++ chr '?' :: u.RawQuery := by
  have h1 : ascii "https" ≠ [] := by decide!
  have h2 : ascii "musicbrainz.org" ≠ [] := by decide!
  have h3 : escape (ascii "musicbrainz.org") .encodeHost = ascii "musicbrainz.org" := by decide!
  have h4 : ascii "https" ++ [chr ':'] ++ (ascii "//" ++ ascii "musicbrainz.org") =
      ascii "https://musicbrainz.org" := by decide!
  have h5 : u.EscapedPath ≠ [] := by
    intro h
    rw [h] at hp
    cases hp
  have h6 : ascii "https://musicbrainz.org" ≠ [] := by decide!
  unfold URL.String
  simp only [hs, ho, hh, hf, hq, hp, h1, h2, h3, h4, h5, h6, ne_eq, not_true_eq_false,
    not_false_eq_true, if_true, if_false, true_or, or_true, and_false, false_and, and_true,
    List.append_nil, true_and]

theorem searchQuery_bytes (query : Bytes) :
    ∀ b ∈ ascii "fmt=json&query=" ++ QueryEscape query,
      b ≠ chr '#' ∧ b ≠ chr '?' ∧ isCTL b = false := by
  have hclosed : ∀ b ∈ ascii "fmt=json&query=", b ≠ chr '#' ∧ b ≠ chr '?' ∧ isCTL b = false := by
    decide!
  intro b hb
  rcases List.mem_append.mp hb with hb | hb
  · exact hclosed b hb
  · have := QueryEscape_bytes query b hb
    exact ⟨this.1, this.2.1, this.2.2.2.2.2⟩

theorem searchQuery_ne_nil (query : Bytes) : ascii "fmt=json&query=" ++ QueryEscape query ≠ [] := by
  intro h
  have hl := congrArg List.length h
  rw [List.length_append] at hl
  have h1 : (ascii "fmt=json&query=").length = 15 := rfl
  simp only [h1, List.length_nil] at hl
  omega

theorem NewRequest_search (query : Bytes) :
    NewRequest "GET" (ascii "https://musicbrainz.org" ++ ascii "/ws/2/release/" ++
        chr '?' :: (ascii "fmt=json&query=" ++ QueryEscape query)) =
      .ok (searchRequest query) := by
  have hm : validMethod "GET" = true := by decide
  have hsplit : ascii "https://musicbrainz.org" ++ ascii "/ws/2/release/" =
      ascii "https://musicbrainz.org/" ++ ascii "ws/2/release/" := by decide!
  have htail : ∀ b ∈ ascii "ws/2/release/", b ≠ chr '#' ∧ b ≠ chr '?' ∧ isCTL b = false := by
    decide!
  have hq := searchQuery_bytes query
  have hfrag : chr '#' ∉ ascii "https://musicbrainz.org/" ++ ascii "ws/2/release/" ++
      chr '?' :: (ascii "fmt=json&query=" ++ QueryEscape query) := by
    intro hmem
    simp only [List.mem_append, List.mem_cons] at hmem
    rcases hmem with (hb | hb) | hb | hb
    · exact (origin_bytes _ hb).1 rfl
    · exact (htail _ hb).1 rfl
    · revert hb; decide
    · exact (hq _ (List.mem_append.mpr hb)).1 rfl
  have hun : unescape (chr '/' :: ascii "ws/2/release/") .encodePath =
      .ok (ascii "/ws/2/release/") := by decide!
  have hraw : (chr '/' :: ascii "ws/2/release/") = escape (ascii "/ws/2/release/") .encodePath := by
    decide!
  have hport : removeEmptyPort (ascii "musicbrainz.org") = ascii "musicbrainz.org" := by decide!
  unfold NewRequest
  simp only [hm, hsplit, Parse_of_no_fragment _ hfrag,
    parse_with_query _ _ (fun b hb => (htail b hb).2) (fun b hb => (hq b hb).2)
      (searchQuery_ne_nil query),
    setPath_of_unescape _ _ _ hun, hport]
  simp [searchRequest, searchEndpoint, hraw, hm]

/-- The operation `SearchReleases` always builds its request, the same way for every
query, and hands it to `roundTrip`. -/
theorem SearchReleases_eq (c : Client) (query : Bytes) :
    c.SearchReleases query = c.roundTrip SearchResponse.decode {} (searchRequest query) := by
  have hEP : URL.EscapedPath
      { searchEndpoint with RawQuery := ascii "fmt=json&query=" ++ QueryEscape query } =
      ascii "/ws/2/release/" := by
    have h1 : escape (ascii "/ws/2/release/") .encodePath = ascii "/ws/2/release/" := by decide!
    have h2 : ascii "/ws/2/release/" ≠ ascii "*" := by decide!
    simp [URL.EscapedPath, searchEndpoint, h1, h2]
  have hString : URL.String
      { searchEndpoint with RawQuery := ascii "fmt=json&query=" ++ QueryEscape query } =
      ascii "https://musicbrainz.org" ++ ascii "/ws/2/release/" ++
        chr '?' :: (ascii "fmt=json&query=" ++ QueryEscape query) := by
    have := String_musicbrainz
      { searchEndpoint with RawQuery := ascii "fmt=json&query=" ++ QueryEscape query }
      rfl rfl rfl rfl (searchQuery_ne_nil query) (by rw [hEP]; rfl)
    rw [this, hEP]
  rw [SearchReleases_def]
  simp only [Parse_searchEndpoint, searchValues, searchValues_Encode, hString,
    NewRequest_search]

/-- Decoding the query string that `SearchReleases` sends gives back `fmt=json` and the
query text, byte for byte. -/
theorem ParseQuery_search (query : Bytes) :
    ParseQuery (ascii "fmt=json&query=" ++ QueryEscape query) =
      ([(ascii "fmt", [ascii "json"]), (ascii "query", [query])], none) := by
  have hE := QueryEscape_bytes query
  have hshape : ascii "fmt=json&query=" ++ QueryEscape query =
      ascii "fmt=json" ++ chr '&' :: (ascii "query=" ++ QueryEscape query) := rfl
  have h1 : chr '&' ∉ ascii "fmt=json" := by decide!
  have h2 : chr '&' ∉ ascii "query=" ++ QueryEscape query := by
    intro hm
    rcases List.mem_append.mp hm with hm | hm
    · revert hm; decide!
    · exact (hE _ hm).2.2.1 rfl
  have hseg1 : parseQuerySegment ([], none) (ascii "fmt=json") =
      ([(ascii "fmt", [ascii "json"])], none) := by decide!
  have hsemi : (ascii "query=" ++ QueryEscape query).contains (chr ';') = false := by
    have hclosed : ∀ b ∈ ascii "query=", b ≠ chr ';' := by decide!
    rw [List.contains_eq_any_beq, List.any_eq_false]
    intro b hb
    rcases List.mem_append.mp hb with hb | hb
    · simpa using fun h => hclosed b hb h.symm
    · have := (hE _ hb).2.2.2.2.1
      simpa using fun h => this h.symm
  have hne : ascii "query=" ++ QueryEscape query ≠ [] := by
    intro h
    have hl := congrArg List.length h
    rw [List.length_append] at hl
    have h1 : (ascii "query=").length = 6 := rfl
    simp only [h1, List.length_nil] at hl
    omega
  have hcut : cut (chr '=') (ascii "query=" ++ QueryEscape query) =
      (ascii "query", QueryEscape query, true) := rfl
  have hkey : QueryUnescape (ascii "query") = .ok (ascii "query") := by decide!
  have hadd : Values.Add [(ascii "fmt", [ascii "json"])] (ascii "query") query =
      [(ascii "fmt", [ascii "json"]), (ascii "query", [query])] := by
    have h1 : ascii "query" ≠ ascii "fmt" := by decide!
    have h2 : bytesLt (ascii "query") (ascii "fmt") = false := by decide!
    simp [Values.Add, Values.modify, h1, h2]
  have hseg2 : parseQuerySegment ([(ascii "fmt", [ascii "json"])], none)
      (ascii "query=" ++ QueryEscape query) =
      ([(ascii "fmt", [ascii "json"]), (ascii "query", [query])], none) := by
    simp only [parseQuerySegment, hsemi, hne, hcut, hkey, QueryUnescape_QueryEscape, hadd,
      Bool.false_eq_true, if_false]
  rw [ParseQuery, hshape, splitOn_append_sep _ _ _ h1, splitOn_of_not_mem _ _ h2]
  simp only [List.foldl, hseg1, hseg2]

/-- C9: for every query string, `SearchReleases` sends exactly one request: a `GET` to
`https://musicbrainz.org/ws/2/release/` whose query string is `fmt=json&query=` followed by
the escaped query, and this query string decodes to exactly the two parameters
`fmt = json` and `query = <the query text>`, the text being unchanged byte for byte. -/
theorem search_request_shape (c : Client) (query : Bytes) :
    ∃ req, (c.SearchReleases query).sent = [req] ∧
      req.Method = "GET" ∧
      req.URL.Scheme = ascii "https" ∧
      req.URL.Host = ascii "musicbrainz.org" ∧
      req.URL.Path = ascii "/ws/2/release/" ∧
      req.URL.Fragment = [] ∧
      req.URL.RawQuery = ascii "fmt=json&query=" ++ QueryEscape query ∧
      req.URL.RequestURI = ascii "/ws/2/release/?fmt=json&query=" ++ QueryEscape query ∧
      ParseQuery req.URL.RawQuery =
        ([(ascii "fmt", [ascii "json"]), (ascii "query", [query])], none) ∧
      req.URL.Query.Get (ascii "query") = query := by
  refine ⟨{ searchRequest query with
      Header := Header.Set (searchRequest query).Header "User-Agent" UserAgent }, ?_, rfl, rfl,
    rfl, rfl, rfl, rfl, ?_, ParseQuery_search query, ?_⟩
  · rw [SearchReleases_eq, roundTrip_sent]
  · have h1 : escape (ascii "/ws/2/release/") .encodePath = ascii "/ws/2/release/" := by decide!
    have h2 : ascii "/ws/2/release/" ≠ ascii "*" := by decide!
    have h3 : ascii "/ws/2/release/" ≠ [] := by decide!
    simp only [URL.RequestURI, URL.EscapedPath, searchRequest, searchEndpoint, h1, h2, h3,
      searchQuery_ne_nil query, ne_eq, not_true_eq_false, false_and, if_false, if_true,
      not_false_eq_true, or_true]
    rfl
  · have h := ParseQuery_search query
    have hq : (ascii "query" == ascii "fmt") = false := by decide!
    simp only [URL.Query, searchRequest, searchEndpoint, h, Values.Get, List.lookup, hq,
      beq_self_eq_true]

/-- Function `http.NewRequest` on `https://musicbrainz.org<escaped path>?<query>`. -/
theorem NewRequest_musicbrainz (escaped path query : Bytes)
    (hhead : escaped.head? = some (chr '/'))
    (hescaped : ∀ b ∈ escaped, b ≠ chr '#' ∧ b ≠ chr '?' ∧ isCTL b = false)
    (hun : unescape escaped .encodePath = .ok path)
    (hquery : ∀ b ∈ query, b ≠ chr '#' ∧ b ≠ chr '?' ∧ isCTL b = false) (hne : query ≠ []) :
    NewRequest "GET" (ascii "https://musicbrainz.org" ++ escaped ++ chr '?' :: query) =
      .ok { Method := "GET",
            URL := { Scheme := ascii "https", Host := ascii "musicbrainz.org", Path := path,
                     RawPath := if escaped = escape path .encodePath then [] else escaped,
                     RawQuery := query },
            Header := [], Host := ascii "musicbrainz.org" } := by
  cases escaped with
  | nil => cases hhead
  | cons first tail =>
    simp only [List.head?_cons, Option.some.injEq] at hhead
    subst hhead
    have hm : validMethod "GET" = true := by decide
    have hsplit : ascii "https://musicbrainz.org" ++ chr '/' :: tail ++ chr '?' :: query =
        ascii "https://musicbrainz.org/" ++ tail ++ chr '?' :: query := rfl
    have htail : ∀ b ∈ tail, b ≠ chr '#' ∧ b ≠ chr '?' ∧ isCTL b = false :=
      fun b hb => hescaped b (List.mem_cons_of_mem _ hb)
    have hfrag : chr '#' ∉ ascii "https://musicbrainz.org/" ++ tail ++ chr '?' :: query := by
      intro hmem
      simp only [List.mem_append, List.mem_cons] at hmem
      rcases hmem with (hb | hb) | hb | hb
      · exact (origin_bytes _ hb).1 rfl
      · exact (htail _ hb).1 rfl
      · revert hb; decide
      · exact (hquery _ hb).1 rfl
    have hport : removeEmptyPort (ascii "musicbrainz.org") = ascii "musicbrainz.org" := by
      decide!
    unfold NewRequest
    simp only [hsplit, Parse_of_no_fragment _ hfrag,
      parse_with_query _ _ (fun b hb => (htail b hb).2) (fun b hb => (hquery b hb).2) hne,
      setPath_of_unescape _ _ _ hun, hport]
    simp [hm]

theorem releaseValues :
    Values.Encode (Values.Set (Values.Set [] (ascii "inc") (ascii "recordings"))
      (ascii "fmt") (ascii "json")) = ascii "fmt=json&inc=recordings" := by
  decide!

theorem releaseQuery_bytes :
    ∀ b ∈ ascii "fmt=json&inc=recordings", b ≠ chr '#' ∧ b ≠ chr '?' ∧ isCTL b = false := by
  decide!

theorem releaseQuery_parsed :
    (ParseQuery (ascii "fmt=json&inc=recordings")).1 =
      [(ascii "fmt", [ascii "json"]), (ascii "inc", [ascii "recordings"])] := by
  decide!

/-- The operation `GetRelease` on an id without `?`, `#`, `%` and control bytes: the
request it hands to `roundTrip` has the path `/ws/2/release/<id>` and the query
`fmt=json&inc=recordings`. -/
theorem GetRelease_eq (c : Client) (id : Bytes)
    (hid : ∀ b ∈ id, b ≠ chr '?' ∧ b ≠ chr '#' ∧ b ≠ chr '%' ∧ isCTL b = false) :
    ∃ rawPath, c.GetRelease id = c.roundTrip ReleaseDetail.decode {}
      { Method := "GET",
        URL := { Scheme := ascii "https", Host := ascii "musicbrainz.org",
                 Path := ascii "/ws/2/release/" ++ id, RawPath := rawPath,
                 RawQuery := ascii "fmt=json&inc=recordings" },
        Header := [], Host := ascii "musicbrainz.org" } := by
  have hclosed : ∀ b ∈ ascii "ws/2/release/",
      b ≠ chr '?' ∧ b ≠ chr '#' ∧ b ≠ chr '%' ∧ isCTL b = false := by decide!
  have htail : ∀ b ∈ ascii "ws/2/release/" ++ id,
      b ≠ chr '?' ∧ b ≠ chr '#' ∧ b ≠ chr '%' ∧ isCTL b = false := by
    intro b hb
    rcases List.mem_append.mp hb with hb | hb
    · exact hclosed b hb
    · exact hid b hb
  have hpath : ∀ b ∈ ascii "/ws/2/release/" ++ id,
      b ≠ chr '?' ∧ b ≠ chr '#' ∧ b ≠ chr '%' ∧ isCTL b = false := by
    intro b hb
    have hb' : b ∈ chr '/' :: (ascii "ws/2/release/" ++ id) := hb
    rcases List.mem_cons.mp hb' with hb' | hb'
    · subst hb'; decide
    · exact htail b hb'
  have hraw : ascii (BaseURL ++ "/release/") ++ id =
      ascii "https://musicbrainz.org/" ++ (ascii "ws/2/release/" ++ id) := rfl
  have hfrag : chr '#' ∉ ascii "https://musicbrainz.org/" ++ (ascii "ws/2/release/" ++ id) := by
    intro hmem
    rcases List.mem_append.mp hmem with hb | hb
    · exact (origin_bytes _ hb).1 rfl
    · exact (htail _ hb).2.1 rfl
  have hun : unescape (chr '/' :: (ascii "ws/2/release/" ++ id)) .encodePath =
      .ok (ascii "/ws/2/release/" ++ id) :=
    unescape_path_of_no_percent (ascii "/ws/2/release/" ++ id)
      (fun hm => (hpath _ hm).2.2.1 rfl)
  have hstar : ascii "/ws/2/release/" ++ id ≠ ascii "*" := by
    intro h
    have hl := congrArg List.length h
    rw [List.length_append] at hl
    have h1 : (ascii "/ws/2/release/").length = 14 := rfl
    have h2 : (ascii "*").length = 1 := rfl
    omega
  -- the URL after the first parse, with the query set
  generalize hu : ({
      Scheme := ascii "https", Host := ascii "musicbrainz.org",
      Path := ascii "/ws/2/release/" ++ id,
      RawPath := if chr '/' :: (ascii "ws/2/release/" ++ id) =
        escape (ascii "/ws/2/release/" ++ id) .encodePath then []
        else chr '/' :: (ascii "ws/2/release/" ++ id),
      RawQuery := ascii "fmt=json&inc=recordings" } : URL) = u
  have hEP : u.EscapedPath = ascii "/ws/2/release/" ++ id ∨
      u.EscapedPath = escape (ascii "/ws/2/release/" ++ id) .encodePath := by
    rw [← hu]
    exact EscapedPath_unescapes
      { Scheme := ascii "https", Host := ascii "musicbrainz.org",
        RawQuery := ascii "fmt=json&inc=recordings" } _ _ hstar
  have hEPhead : u.EscapedPath.head? = some (chr '/') := by
    rcases hEP with h | h
    · rw [h]; rfl
    · rw [h]
      have : ascii "/ws/2/release/" ++ id = chr '/' :: (ascii "ws/2/release/" ++ id) := rfl
      rw [this, escape_cons_path]
      have hs : shouldEscape (chr '/') .encodePath = false := by decide
      simp [hs]
  have hEPbytes : ∀ b ∈ u.EscapedPath, b ≠ chr '#' ∧ b ≠ chr '?' ∧ isCTL b = false := by
    rcases hEP with h | h
    · rw [h]
      intro b hb
      exact ⟨(hpath b hb).2.1, (hpath b hb).1, (hpath b hb).2.2.2⟩
    · rw [h]
      exact escape_path_bytes _
  have hEPun : unescape u.EscapedPath .encodePath = .ok (ascii "/ws/2/release/" ++ id) := by
    rcases hEP with h | h
    · rw [h]; exact hun
    · rw [h]; exact unescape_escape_path _
  have hString : u.String =
      ascii "https://musicbrainz.org" ++ u.EscapedPath ++
        chr '?' :: ascii "fmt=json&inc=recordings" := by
    have := String_musicbrainz u (by rw [← hu]) (by rw [← hu]) (by rw [← hu]) (by rw [← hu])
      (by rw [← hu]; exact (by decide! : ascii "fmt=json&inc=recordings" ≠ [])) hEPhead
    rw [this, ← hu]
  refine ⟨if u.EscapedPath = escape (ascii "/ws/2/release/" ++ id) .encodePath then []
    else u.EscapedPath, ?_⟩
  rw [GetRelease_def]
  rw [hraw, Parse_of_no_fragment _ hfrag,
    parse_without_query _ (fun b hb => ⟨(htail b hb).1, (htail b hb).2.2.2⟩),
    setPath_of_unescape _ _ _ hun]
  have hq0 : (ParseQuery ([] : Bytes)).1 = [] := rfl
  simp only [URL.Query, hq0, releaseValues, hu, hString,
    NewRequest_musicbrainz _ _ _ hEPhead hEPbytes hEPun releaseQuery_bytes
      (by decide! : ascii "fmt=json&inc=recordings" ≠ [])]

/-! ## From the upstream answer to the response -/

theorem roundTrip_ok {α : Type} (c : Client) (dec : α → Json → Except DecodeError α)
    (zero : α) (req : Request) (resp : UpstreamResponse) (body : Json)
    (hdo : ∀ sentReq ∈ (c.roundTrip dec zero req).sent, c.Do sentReq = .ok resp)
    (hstatus : resp.StatusCode = 200) (hbody : resp.Body = some body) :
    (c.roundTrip dec zero req).result =
      match dec zero body with
      | .error e => .error (.decode e)
      | .ok v => .ok v := by
  have h := hdo _ (by rw [roundTrip_sent]; exact List.mem_singleton.mpr rfl)
  simp only [Client.roundTrip, h, hstatus, hbody, jsonDecode, StatusOK]
  simp

/-- Either `GetRelease` fails before sending anything, or it is `roundTrip` on the
request it built. -/
theorem GetRelease_cases (c : Client) (id : Bytes) :
    (∃ e, c.GetRelease id = { sent := [], result := .error e }) ∨
    ∃ req, c.GetRelease id = c.roundTrip ReleaseDetail.decode {} req := by
  rw [GetRelease_def]
  cases Parse (ascii (BaseURL ++ "/release/") ++ id) with
  | error e => exact Or.inl ⟨_, rfl⟩
  | ok u =>
    simp only
    generalize NewRequest _ _ = built
    cases built with
    | error e => exact Or.inl ⟨_, rfl⟩
    | ok req => exact Or.inr ⟨req, rfl⟩

theorem handleSearch_ok (c : Client) (r : HttpRequest) (v : SearchResponse)
    (hq : r.URL.Query.Get (ascii "q") ≠ [])
    (hres : (c.SearchReleases (r.URL.Query.Get (ascii "q"))).result = .ok v) :
    (handleSearch c r).w.statusCode = 200 ∧
    (handleSearch c r).w.header = [("Content-Type", ["application/json"])] ∧
    (handleSearch c r).w.body = [.jsonLine v.encode] := by
  have hs : handleSearch c r =
      { w := ResponseWriter.Write
          { header := Header.Set [] "Content-Type" "application/json" }
          (.jsonLine v.encode),
        sent := (c.SearchReleases (r.URL.Query.Get (ascii "q"))).sent } := by
    simp [handleSearch, hq, hres]
  rw [hs]
  exact ⟨rfl, rfl, rfl⟩

theorem handleRelease_ok (c : Client) (r : HttpRequest) (id : Bytes) (v : ReleaseDetail)
    (hpath : r.URL.Path = ascii "/api/release/" ++ id) (hid : id ≠ [])
    (hres : (c.GetRelease id).result = .ok v) :
    ∃ s, handleRelease c r = some s ∧ s.w.statusCode = 200 ∧
      s.w.header = [("Content-Type", ["application/json"])] ∧
      s.w.body = [.jsonLine v.encode] := by
  refine ⟨{ w := ResponseWriter.Write
              { header := Header.Set [] "Content-Type" "application/json" }
              (.jsonLine v.encode),
            sent := (c.GetRelease id).sent }, ?_, rfl, rfl, rfl⟩
  simp [handleRelease, hpath, sliceFrom_releasePattern, hid, hres]

theorem fresh_items {α : Type} (f : α → α) (s : GoSlice α) :
    (GoSlice.fresh f s).items = s.items.map f := by
  cases s <;> rfl

theorem forall₂_map_left {α : Type} (R : α → α → Prop) (f : α → α) (h : ∀ x, R (f x) x) :
    ∀ xs : List α, List.Forall₂ R (xs.map f) xs
  | [] => List.Forall₂.nil
  | x :: rest => List.Forall₂.cons (h x) (forall₂_map_left R f h rest)

theorem sameRelease_fresh (r : Release) : sameRelease r.fresh r := by
  refine ⟨rfl, rfl, rfl, rfl, rfl, ?_⟩
  simp [artistNames, Release.fresh, fresh_items]

/-! ### How many releases a decoded body has -/

theorem searchResponse_setField_releases (cur next : SearchResponse) (key : String)
    (value : Json) (hk : keyMatches "releases" key = true)
    (h : SearchResponse.setField cur key value = .ok next) :
    decodeSlice "[]musicbrainz.Release" {} Release.decode cur.Releases value =
      .ok next.Releases := by
  have h1 := keyMatches_exclusive "releases" "created" key (by decide) hk
  have h2 := keyMatches_exclusive "releases" "count" key (by decide) hk
  have h3 := keyMatches_exclusive "releases" "offset" key (by decide) hk
  simp only [SearchResponse.setField, h1, h2, h3, hk, if_true, Bool.false_eq_true,
    if_false] at h
  obtain ⟨a, ha, hn⟩ := except_map_eq_ok _ _ _ h
  rw [ha, ← hn]

theorem searchResponse_setField_not_releases (cur next : SearchResponse) (key : String)
    (value : Json) (hk : keyMatches "releases" key = false)
    (h : SearchResponse.setField cur key value = .ok next) : next.Releases = cur.Releases := by
  simp only [SearchResponse.setField, hk, Bool.false_eq_true, if_false] at h
  split_ifs at h
  · obtain ⟨a, _, hn⟩ := except_map_eq_ok _ _ _ h
    rw [← hn]
  · obtain ⟨a, _, hn⟩ := except_map_eq_ok _ _ _ h
    rw [← hn]
  · obtain ⟨a, _, hn⟩ := except_map_eq_ok _ _ _ h
    rw [← hn]
  · simp only [Except.ok.injEq] at h
    rw [← h]

/-- A decoded search response has as many releases as the `releases` array of the body
has entries (none when the body has no such array). -/
theorem searchResponse_decode_length (v : SearchResponse) (body : Json)
    (h : SearchResponse.decode {} body = .ok v) :
    v.Releases.items.length = (Json.elements (body.member "releases")).length := by
  have key := decodeStruct_invariant "musicbrainz.SearchResponse" SearchResponse.setField
    "releases"
    (fun (cur : SearchResponse) acc => cur.Releases.items.length = (Json.elements acc).length)
    (by
      intro cur acc key value next hP hs
      by_cases hk : keyMatches "releases" key = true
      · simp only [hk, if_true]
        have hdec := searchResponse_setField_releases cur next key _ hk hs
        exact (List.Forall₂.length_eq (decodeSlice_elements _ _ _ _ _ _ hdec)).symm
      · simp only [Bool.not_eq_true] at hk
        simp only [hk, Bool.false_eq_true, if_false]
        rw [searchResponse_setField_not_releases cur next key value hk hs]
        exact hP)
    {} v body rfl h
  exact key

/-- A decoded search response, once encoded, states what the body states: created, count,
offset, and release by release the id, title, status, date, score and credited names. -/
theorem searchResponse_decode_kept (base v : SearchResponse) (body : Json)
    (h : SearchResponse.decode base body = .ok v) : searchKept body v.encode := by
  have henc := searchResponse_member_encode
  refine ⟨?_, ?_, ?_, ?_⟩
  · exact decodeStruct_stringKept "musicbrainz.SearchResponse" SearchResponse.setField
      "created" SearchResponse.Created SearchResponse.encode (fun r => (henc r).1)
      (fun cur key value next hk hs => (searchResponse_setField_set cur next key value hs).1 hk)
      (fun cur key value next hk hs => (searchResponse_setField_keep cur next key value hs).1 hk)
      base v body h
  · exact decodeStruct_intKept "musicbrainz.SearchResponse" SearchResponse.setField
      "count" SearchResponse.Count SearchResponse.encode (fun r => (henc r).2.1)
      (fun cur key value next hk hs =>
        (searchResponse_setField_set cur next key value hs).2.1 hk)
      (fun cur key value next hk hs =>
        (searchResponse_setField_keep cur next key value hs).2.1 hk)
      base v body h
  · exact decodeStruct_intKept "musicbrainz.SearchResponse" SearchResponse.setField
      "offset" SearchResponse.Offset SearchResponse.encode (fun r => (henc r).2.2.1)
      (fun cur key value next hk hs =>
        (searchResponse_setField_set cur next key value hs).2.2 hk)
      (fun cur key value next hk hs =>
        (searchResponse_setField_keep cur next key value hs).2.2 hk)
      base v body h
  · exact decodeStruct_sliceKept "musicbrainz.SearchResponse" "[]musicbrainz.Release"
      SearchResponse.setField "releases" SearchResponse.Releases SearchResponse.encode {}
      Release.decode Release.encode releaseKept (fun r => (henc r).2.2.2)
      (fun base item x hx => release_decode_kept base x item hx)
      (fun cur key value next hk hs => searchResponse_setField_releases cur next key value hk hs)
      (fun cur key value next hk hs =>
        searchResponse_setField_not_releases cur next key value hk hs)
      base v body h

/-! ## The remaining contracts -/

/-- C4: when the upstream service answers the search request with status 200 and a body
that `SearchReleases` decodes (to `v`), the handler answers 200 with the JSON encoding of
`v`; that output states, entry by entry and in the order of the body, the id, title,
status, date, score and credited names that the body states, and its created, count and
offset; and decoding the output again gives a response with as many releases as the
`releases` array of the body has entries, in the same order, each with the same id, title,
status, date, score and names credited as in `v`, and with the same created, count and
offset. For the Nevermind body of the scenario the output is the input document itself. -/
theorem search_round_trip (c : Client) (r : HttpRequest) (resp : UpstreamResponse)
    (body : Json) (v : SearchResponse)
    (hq : r.URL.Query.Get (ascii "q") ≠ [])
    (hdo : ∀ req ∈ (c.SearchReleases (r.URL.Query.Get (ascii "q"))).sent, c.Do req = .ok resp)
    (hstatus : resp.StatusCode = 200) (hbody : resp.Body = some body)
    (hdec : SearchResponse.decode {} body = .ok v) :
    ((handleSearch c r).w.statusCode = 200 ∧
     (handleSearch c r).w.header = [("Content-Type", ["application/json"])] ∧
     (handleSearch c r).w.body = [.jsonLine v.encode] ∧
     searchKept body v.encode ∧
     ∃ again, SearchResponse.decode {} v.encode = .ok again ∧
       again.Releases.items.length = (Json.elements (body.member "releases")).length ∧
       List.Forall₂ sameRelease again.Releases.items v.Releases.items ∧
       again.Created = v.Created ∧ again.Count = v.Count ∧ again.Offset = v.Offset) ∧
    (SearchResponse.decode {} nevermind).map SearchResponse.encode = .ok nevermind := by
  constructor
  · have hres : (c.SearchReleases (r.URL.Query.Get (ascii "q"))).result = .ok v := by
      rw [SearchReleases_eq] at hdo ⊢
      rw [roundTrip_ok c _ _ _ resp body hdo hstatus hbody, hdec]
    obtain ⟨h1, h2, h3⟩ := handleSearch_ok c r v hq hres
    refine ⟨h1, h2, h3, searchResponse_decode_kept {} v body hdec, v.fresh,
      searchResponse_decode_encode v, ?_, ?_, rfl, rfl, rfl⟩
    · rw [← searchResponse_decode_length v body hdec]
      simp [SearchResponse.fresh, fresh_items]
    · simp only [SearchResponse.fresh, fresh_items]
      exact forall₂_map_left sameRelease Release.fresh sameRelease_fresh _
  · rfl

/-- The witness for C4: the scenario `GET /api/search?q=Nevermind` against an upstream
service that answers with the Nevermind body. -/
theorem search_round_trip_witness :
    (handleSearch (answering nevermind) nevermindSearch).w.statusCode = 200 ∧
    (handleSearch (answering nevermind) nevermindSearch).w.body = [.jsonLine nevermind] ∧
    ∃ again, SearchResponse.decode {} nevermind = .ok again ∧
      again.Releases.items.length = 1 :=
  match search_round_trip (answering nevermind) nevermindSearch
      { StatusCode := 200, Status := "200 OK", Body := some nevermind } nevermind
      nevermindResponse (by decide) (fun _ _ => rfl) rfl rfl rfl with
  | ⟨⟨h1, _, h3, _, again, hagain, hlen, _⟩, _⟩ => ⟨h1, h3, again, hagain, hlen⟩

/-- C5: when the upstream service answers the release request with status 200 and a body
that `GetRelease` accepts, the handler answers 200 with a document whose `media` array
has one medium per medium of the body, in the order of the body, each stating the
position that the body states for it, and whose `tracks` arrays likewise follow the
body track by track; nothing is sorted. -/
theorem release_order_kept (c : Client) (r : HttpRequest) (id : Bytes)
    (resp : UpstreamResponse) (body : Json) (v : ReleaseDetail)
    (hpath : r.URL.Path = ascii "/api/release/" ++ id) (hid : id ≠ [])
    (hdo : ∀ req ∈ (c.GetRelease id).sent, c.Do req = .ok resp)
    (hbody : resp.Body = some body)
    (hres : (c.GetRelease id).result = .ok v) :
    ∃ s, handleRelease c r = some s ∧ s.w.statusCode = 200 ∧
      s.w.header = [("Content-Type", ["application/json"])] ∧
      s.w.body = [.jsonLine v.encode] ∧
      ReleaseDetail.decode {} body = .ok v ∧
      mediaKept body v.encode := by
  have hdec : ReleaseDetail.decode {} body = .ok v := by
    rcases GetRelease_cases c id with ⟨e, he⟩ | ⟨req, hreq⟩
    · rw [he] at hres
      cases hres
    · rw [hreq] at hres hdo
      have hsent := hdo _ (by rw [roundTrip_sent]; exact List.mem_singleton.mpr rfl)
      simp only [Client.roundTrip, hsent, hbody, jsonDecode] at hres
      split_ifs at hres
      cases hd : ReleaseDetail.decode {} body with
      | error e => simp [hd] at hres
      | ok v2 =>
        simp only [hd, Except.ok.injEq] at hres
        rw [hres]
  obtain ⟨s, hs, h1, h2, h3⟩ := handleRelease_ok c r id v hpath hid hres
  exact ⟨s, hs, h1, h2, h3, hdec, releaseDetail_decode_media {} v body hdec⟩

/-- The witness for C5: a release with two media, the second-positioned first, and
tracks out of position order; the output is the input document itself. -/
theorem release_order_kept_witness :
    ∃ s, handleRelease (answering twoDiscs) abc123Release = some s ∧
      s.w.body = [.jsonLine twoDiscs] ∧ mediaKept twoDiscs twoDiscs :=
  match release_order_kept (answering twoDiscs) abc123Release (ascii "abc-123")
      { StatusCode := 200, Status := "200 OK", Body := some twoDiscs } twoDiscs twoDiscsDetail
      rfl (by decide) (fun _ _ => rfl) rfl (by decide!) with
  | ⟨s, hs, _, _, hb, _, hk⟩ => ⟨s, hs, hb, hk⟩

/-- C8 as stated fails at these five ids. For `a?x=1` the request has the path
`/ws/2/release/a` and three query parameters; for `a#b` it has the path `/ws/2/release/a`
and the fragment `b`; for `100%` no request is sent; for `a%41b` the request has the path
`/ws/2/release/aAb`; for `a<TAB>b` no request is sent. -/
theorem release_request_counterexample :
    ¬ releaseRequestAsClaimed refusing (ascii "a?x=1") ∧
    (refusing.GetRelease (ascii "a?x=1")).sent.map (fun req => (req.URL.Path, req.URL.Query)) =
      [(ascii "/ws/2/release/a",
        [(ascii "fmt", [ascii "json"]), (ascii "inc", [ascii "recordings"]),
         (ascii "x", [ascii "1"])])] ∧
    ¬ releaseRequestAsClaimed refusing (ascii "a#b") ∧
    (refusing.GetRelease (ascii "a#b")).sent.map (fun req => (req.URL.Path, req.URL.Fragment)) =
      [(ascii "/ws/2/release/a", ascii "b")] ∧
    ¬ releaseRequestAsClaimed refusing (ascii "100%") ∧
    (refusing.GetRelease (ascii "100%")).sent = [] ∧
    ¬ releaseRequestAsClaimed refusing (ascii "a%41b") ∧
    (refusing.GetRelease (ascii "a%41b")).sent.map (fun req => req.URL.Path) =
      [ascii "/ws/2/release/aAb"] ∧
    ¬ releaseRequestAsClaimed refusing (ascii "a\tb") ∧
    (refusing.GetRelease (ascii "a\tb")).sent = [] := by
  decide!

/-- C8, amended: for every id without `?`, `#`, `%` and control bytes, `GetRelease` sends
exactly one request, a `GET` to `https://musicbrainz.org` whose URL path is
`/ws/2/release/` followed by the raw id and whose query holds exactly the two parameters
`fmt=json` and `inc=recordings`. -/
theorem release_request_shape (c : Client) (id : Bytes)
    (hid : ∀ b ∈ id, b ≠ chr '?' ∧ b ≠ chr '#' ∧ b ≠ chr '%' ∧ isCTL b = false) :
    releaseRequestAsClaimed c id ∧
    ∃ req, (c.GetRelease id).sent = [req] ∧ req.Method = "GET" ∧
      req.URL.Scheme = ascii "https" ∧ req.URL.Host = ascii "musicbrainz.org" ∧
      req.URL.Path = ascii "/ws/2/release/" ++ id ∧ req.URL.Fragment = [] ∧
      req.URL.RawQuery = ascii "fmt=json&inc=recordings" ∧
      req.URL.Query = [(ascii "fmt", [ascii "json"]), (ascii "inc", [ascii "recordings"])] := by
  obtain ⟨rawPath, h⟩ := GetRelease_eq c id hid
  constructor
  · unfold releaseRequestAsClaimed
    rw [h, roundTrip_sent]
    simp only [List.map, URL.Query, releaseQuery_parsed]
  · rw [h, roundTrip_sent]
    exact ⟨_, rfl, rfl, rfl, rfl, rfl, rfl, rfl, releaseQuery_parsed⟩

/-- The witness for the amended C8: the id `abc-123`. -/
theorem release_request_shape_witness :
    releaseRequestAsClaimed refusing (ascii "abc-123") :=
  (release_request_shape refusing (ascii "abc-123") (by decide!)).1
